import Mathlib

/-!
Verification of the order-append service in `src/api/orders.js`.

The JavaScript handler is shallowly embedded: JSON values become the `Json`
inductive, the engine builtins the handler relies on (`JSON.parse`,
`JSON.stringify(·, null, 2)`, base64 buffers, UTF-8, `new URL(...).origin`,
number-to-string coercion) are modelled as executable Lean functions, and the
handler itself becomes a pure function from the request, environment,
document-store responses and current time to an HTTP outcome plus the list of
document-store calls it performed.
-/

/-- Brace characters, named so they can be used in code positions. -/
def lbrace : Char := Char.ofNat 123

def rbrace : Char := Char.ofNat 125

/-- JSON / JavaScript structured values (numbers restricted to integers,
which covers every number this handler produces). -/
inductive Json where
  | null
  | bool (b : Bool)
  | num (n : Int)
  | str (s : String)
  | arr (xs : List Json)
  | obj (fields : List (String × Json))

/-- JavaScript truthiness of a value. -/
def jsTruthy : Json → Bool
  | .null => false
  | .bool b => b
  | .num n => n ≠ 0
  | .str s => s ≠ ""
  | .arr _ => true
  | .obj _ => true

/-- Truthiness of an optional header / env value (`none` = `undefined`). -/
def truthyS : Option String → Bool
  | none => false
  | some s => s ≠ ""

def Json.isNull : Json → Bool
  | .null => true
  | _ => false

/-- First-match association-list lookup (JavaScript objects have unique keys,
so first match is the only match). -/
def lookupField : List (String × Json) → String → Option Json
  | [], _ => none
  | (k, v) :: fs, key => if k = key then some v else lookupField fs key

/-- Property read `o.k` on a non-null value: `some` for an own field of an
object, `none` (= `undefined`) otherwise.  Reading on `null` throws in JS and
is handled separately at each call site. -/
def jsProp : Json → String → Option Json
  | .obj fs, k => lookupField fs k
  | _, _ => none

def truthyO (o : Option Json) : Bool :=
  match o with
  | some j => jsTruthy j
  | none => false

/-- Property write `o.k = v` on an object: updates the existing field in
place, else appends the new field (JS insertion order). -/
def setField : List (String × Json) → String → Json → List (String × Json)
  | [], k, v => [(k, v)]
  | (k1, v1) :: fs, k, v =>
    if k1 = k then (k1, v) :: fs else (k1, v1) :: setField fs k v

mutual
def jsize : Json → Nat
  | .null => 1
  | .bool _ => 1
  | .num _ => 1
  | .str _ => 1
  | .arr xs => 1 + jsizeL xs
  | .obj fs => 1 + jsizeO fs
def jsizeL : List Json → Nat
  | [] => 0
  | x :: xs => 1 + jsize x + jsizeL xs
def jsizeO : List (String × Json) → Nat
  | [] => 0
  | e :: fs => 1 + jsize e.2 + jsizeO fs
end

/-! ### Decimal printing of numbers (JS `String(n)` for integers) -/

def digitChar (n : Nat) : Char := Char.ofNat (48 + n)

def digitVal (c : Char) : Nat := c.toNat - 48

/-- Decimal digits of `n`, most significant first; `fuel`-structured so the
kernel can evaluate it (`fuel > n` suffices). -/
def natReprAux : Nat → Nat → List Char
  | 0, _ => []
  | fuel + 1, n =>
    if n < 10 then [digitChar n]
    else natReprAux fuel (n / 10) ++ [digitChar (n % 10)]

def natReprC (n : Nat) : List Char := natReprAux (n + 1) n

def natReprS (n : Nat) : String := String.mk (natReprC n)

def intReprC (n : Int) : List Char :=
  if n < 0 then '-' :: natReprC n.natAbs else natReprC n.toNat

def intReprS (n : Int) : String := String.mk (intReprC n)

/-! ### JavaScript string coercion (used by `'Add order ' + order.id` and by
`JSON.parse`'s argument coercion) -/

mutual
/-- JS `String(v)` coercion. -/
def jsToString : Json → String
  | .null => "null"
  | .bool b => if b then "true" else "false"
  | .num n => intReprS n
  | .str s => s
  | .arr xs => jsArrToString xs
  | .obj _ => "[object Object]"
/-- `Array.prototype.toString` = `join(",")`, with `null` elements empty. -/
def jsArrToString : List Json → String
  | [] => ""
  | [x] => jsElemToString x
  | x :: y :: xs => jsElemToString x ++ "," ++ jsArrToString (y :: xs)
def jsElemToString : Json → String
  | .null => ""
  | .bool b => if b then "true" else "false"
  | .num n => intReprS n
  | .str s => s
  | .arr xs => jsArrToString xs
  | .obj _ => "[object Object]"
end

/-! ### Model of `JSON.parse` -/

def isWsC (c : Char) : Bool := c = ' ' || c = '\n' || c = '\t' || c = '\r'

def skipWs : List Char → List Char
  | [] => []
  | c :: cs => if isWsC c then skipWs cs else c :: cs

def hexVal (c : Char) : Option Nat :=
  if '0' ≤ c ∧ c ≤ '9' then some (c.toNat - 48)
  else if 'a' ≤ c ∧ c ≤ 'f' then some (c.toNat - 87)
  else if 'A' ≤ c ∧ c ≤ 'F' then some (c.toNat - 55)
  else none

def escCodeChar (c : Char) : Option Char :=
  if c = '"' then some '"'
  else if c = '\\' then some '\\'
  else if c = '/' then some '/'
  else if c = 'n' then some '\n'
  else if c = 't' then some '\t'
  else if c = 'r' then some '\r'
  else if c = 'b' then some (Char.ofNat 8)
  else if c = 'f' then some (Char.ofNat 12)
  else none

/-- Parse the body of a JSON string literal (after the opening quote),
returning the decoded characters and the input after the closing quote; a raw
unescaped control character below U+0020 is a syntax error. -/
def parseStrBody : List Char → Option (List Char × List Char)
  | [] => none
  | c :: cs =>
    if c = '"' then some ([], cs)
    else if c = '\\' then
      match cs with
      | [] => none
      | e :: cs1 =>
        if e = 'u' then
          match cs1 with
          | h1 :: h2 :: h3 :: h4 :: cs2 =>
            match hexVal h1, hexVal h2, hexVal h3, hexVal h4 with
            | some a, some b, some c3, some d =>
              match parseStrBody cs2 with
              | some (s, r) =>
                some (Char.ofNat (((a * 16 + b) * 16 + c3) * 16 + d) :: s, r)
              | none => none
            | _, _, _, _ => none
          | _ => none
        else
          match escCodeChar e with
          | some ec =>
            match parseStrBody cs1 with
            | some (s, r) => some (ec :: s, r)
            | none => none
          | none => none
    else if c.toNat < 32 then none
    else
      match parseStrBody cs with
      | some (s, r) => some (c :: s, r)
      | none => none

/-- Consume a maximal run of decimal digits, returning them and the rest. -/
def takeDigitsC : List Char → List Char × List Char
  | [] => ([], [])
  | c :: cs =>
    if c.isDigit then
      ((c :: (takeDigitsC cs).1), (takeDigitsC cs).2)
    else ([], c :: cs)

def digitsValN (l : List Char) : Nat :=
  l.foldl (fun a c => a * 10 + digitVal c) 0

/-- RFC 8259 integer part, `dg` being its (already checked) first digit: a
lone `0`, or a nonzero digit followed by more digits; a leading zero followed
by a digit is a syntax error. -/
def parseIntPart (dg : Char) (cs : List Char) : Option (List Char × List Char) :=
  if dg = '0' then
    match cs with
    | c :: t => if c.isDigit then none else some ([dg], c :: t)
    | [] => some ([dg], [])
  else some (dg :: (takeDigitsC cs).1, (takeDigitsC cs).2)

/-- Optional RFC 8259 fraction part: a dot must be followed by at least one
digit. -/
def parseFracPart : List Char → Option (List Char × List Char)
  | c :: t =>
    if c = '.' then
      match t with
      | c2 :: _ => if c2.isDigit then some (takeDigitsC t) else none
      | [] => none
    else some ([], c :: t)
  | [] => some ([], [])

def parseExpDigits : List Char → Option (List Char × List Char)
  | c :: t => if c.isDigit then some (takeDigitsC (c :: t)) else none
  | [] => none

/-- Optional RFC 8259 exponent part: `e`/`E`, an optional sign, and at least
one digit; returns (exponent is negative, its digits, rest). -/
def parseExpPart : List Char → Option (Bool × List Char × List Char)
  | c :: t =>
    if c = 'e' ∨ c = 'E' then
      match t with
      | s :: t2 =>
        if s = '+' then
          match parseExpDigits t2 with
          | some (ds, r) => some (false, ds, r)
          | none => none
        else if s = '-' then
          match parseExpDigits t2 with
          | some (ds, r) => some (true, ds, r)
          | none => none
        else
          match parseExpDigits (s :: t2) with
          | some (ds, r) => some (false, ds, r)
          | none => none
      | [] => none
    else some (false, [], c :: t)
  | [] => some (false, [], [])

/-- Magnitude of a parsed number, truncated toward zero to an integer (the
model keeps `Json` numbers integral; the fractional part is never observable
through this handler, since an order that is a number always fails the field
validation). -/
def numValue (ids fds : List Char) (eneg : Bool) (eds : List Char) : Nat :=
  let m := digitsValN (ids ++ fds)
  let e : Int :=
    (if eneg then -(digitsValN eds : Int) else (digitsValN eds : Int)) - (fds.length : Int)
  if 0 ≤ e then m * 10 ^ e.toNat else m / 10 ^ (-e).toNat

/-- Parse a JSON number after its optional sign, `dg` being its first digit:
exactly the RFC 8259 grammar `int [frac] [exp]`, its magnitude truncated to a
natural number. -/
def parseNumber (dg : Char) (cs : List Char) : Option (Nat × List Char) :=
  match parseIntPart dg cs with
  | none => none
  | some (ids, r1) =>
    match parseFracPart r1 with
    | none => none
    | some (fds, r2) =>
      match parseExpPart r2 with
      | none => none
      | some (eneg, eds, r3) => some (numValue ids fds eneg eds, r3)

mutual
/-- Recursive-descent JSON value parser (leading whitespace allowed); returns
the value and the remaining input right after it. -/
def parseVal : Nat → List Char → Option (Json × List Char)
  | 0, _ => none
  | fuel + 1, cs =>
    match skipWs cs with
    | [] => none
    | c :: cs1 =>
      if c = 'n' then
        match cs1 with
        | 'u' :: 'l' :: 'l' :: r => some (.null, r)
        | _ => none
      else if c = 't' then
        match cs1 with
        | 'r' :: 'u' :: 'e' :: r => some (.bool true, r)
        | _ => none
      else if c = 'f' then
        match cs1 with
        | 'a' :: 'l' :: 's' :: 'e' :: r => some (.bool false, r)
        | _ => none
      else if c = '"' then
        match parseStrBody cs1 with
        | some (s, r) => some (.str (String.mk s), r)
        | none => none
      else if c = '-' then
        match cs1 with
        | d :: cs2 =>
          if d.isDigit then
            match parseNumber d cs2 with
            | some (v, r) => some (.num (-(v : Int)), r)
            | none => none
          else none
        | [] => none
      else if c.isDigit then
        match parseNumber c cs1 with
        | some (v, r) => some (.num (v : Int), r)
        | none => none
      else if c = '[' then
        match skipWs cs1 with
        | c2 :: r =>
          if c2 = ']' then some (.arr [], r)
          else
            match parseArrItems fuel (c2 :: r) with
            | some (xs, r2) => some (.arr xs, r2)
            | none => none
        | [] => none
      else if c = lbrace then
        match skipWs cs1 with
        | c2 :: r =>
          if c2 = rbrace then some (.obj [], r)
          else
            match parseObjItems fuel (c2 :: r) with
            | some (fs, r2) => some (.obj fs, r2)
            | none => none
        | [] => none
      else none
/-- Parse the items of a non-empty array up to and including the closing
bracket. -/
def parseArrItems : Nat → List Char → Option (List Json × List Char)
  | 0, _ => none
  | fuel + 1, cs =>
    match parseVal fuel cs with
    | some (v, r1) =>
      match skipWs r1 with
      | c :: r2 =>
        if c = ',' then
          match parseArrItems fuel r2 with
          | some (vs, r3) => some (v :: vs, r3)
          | none => none
        else if c = ']' then some ([v], r2)
        else none
      | [] => none
    | none => none
/-- Parse the entries of a non-empty object up to and including the closing
brace. -/
def parseObjItems : Nat → List Char → Option (List (String × Json) × List Char)
  | 0, _ => none
  | fuel + 1, cs =>
    match skipWs cs with
    | c :: cs1 =>
      if c = '"' then
        match parseStrBody cs1 with
        | some (k, r1) =>
          match skipWs r1 with
          | c2 :: r2 =>
            if c2 = ':' then
              match parseVal fuel r2 with
              | some (v, r3) =>
                match skipWs r3 with
                | c3 :: r4 =>
                  if c3 = ',' then
                    match parseObjItems fuel r4 with
                    | some (es, r5) => some ((String.mk k, v) :: es, r5)
                    | none => none
                  else if c3 = rbrace then some ([(String.mk k, v)], r4)
                  else none
                | [] => none
              | none => none
            else none
          | [] => none
        | none => none
      else none
    | [] => none
end

/-- Model of `JSON.parse`: `none` means a `SyntaxError` is thrown.  The
accept/reject boundary follows RFC 8259 (leading-zero numbers, a fraction or
exponent without digits, raw control characters inside string literals and
trailing input are all rejected; fraction and exponent forms are accepted).
The one representation choice: number values are truncated to integers, and a
`\u` escape of a lone surrogate falls back to the null character — both are
invisible to this handler, which never inspects a parsed number and only asks
whether parsed strings are empty. -/
def jsonParse (s : String) : Option Json :=
  match parseVal (s.data.length + 1) s.data with
  | some (v, r) => if skipWs r = [] then some v else none
  | none => none

/-! ### Model of `JSON.stringify(·, null, 2)` -/

def hexDig (n : Nat) : Char :=
  if n < 10 then digitChar n else Char.ofNat (87 + n)

/-- Escaping of one character inside a JSON string literal, as
`JSON.stringify` performs it. -/
def escChar (c : Char) : List Char :=
  if c = '"' then ['\\', '"']
  else if c = '\\' then ['\\', '\\']
  else if c = '\n' then ['\\', 'n']
  else if c = '\r' then ['\\', 'r']
  else if c = '\t' then ['\\', 't']
  else if c.toNat = 8 then ['\\', 'b']
  else if c.toNat = 12 then ['\\', 'f']
  else if c.toNat < 32 then
    ['\\', 'u', '0', '0', hexDig (c.toNat / 16), hexDig (c.toNat % 16)]
  else [c]

def escStr : List Char → List Char
  | [] => []
  | c :: cs => escChar c ++ escStr cs

/-- Two spaces of indentation per depth level. -/
def indentC (d : Nat) : List Char := List.replicate (2 * d) ' '

mutual
/-- `JSON.stringify(v, null, 2)` at nesting depth `d`. -/
def printJ (d : Nat) : Json → List Char
  | .null => "null".data
  | .bool true => "true".data
  | .bool false => "false".data
  | .num n => intReprC n
  | .str s => '"' :: (escStr s.data ++ ['"'])
  | .arr [] => ['[', ']']
  | .arr (x :: xs) =>
    '[' :: '\n' ::
      (printItems (d + 1) (x :: xs) ++ '\n' :: (indentC d ++ [']']))
  | .obj [] => [lbrace, rbrace]
  | .obj (e :: es) =>
    lbrace :: '\n' ::
      (printEntries (d + 1) (e :: es) ++ '\n' :: (indentC d ++ [rbrace]))
def printItems (d : Nat) : List Json → List Char
  | [] => []
  | [x] => indentC d ++ printJ d x
  | x :: y :: xs =>
    indentC d ++ (printJ d x ++ ',' :: '\n' :: printItems d (y :: xs))
def printEntries (d : Nat) : List (String × Json) → List Char
  | [] => []
  | [e] => indentC d ++ ('"' :: (escStr e.1.data ++ '"' :: ':' :: ' ' :: printJ d e.2))
  | e :: e2 :: es =>
    indentC d ++
      ('"' :: (escStr e.1.data ++ '"' :: ':' :: ' ' :: printJ d e.2)) ++
        ',' :: '\n' :: printEntries d (e2 :: es)
end

/-- `JSON.stringify(v, null, 2)`. -/
def stringify2 (j : Json) : String := String.mk (printJ 0 j)

/-! ### UTF-8 and base64 (models of `Buffer.from(..., 'utf8'/'base64')`) -/

def utf8EncodeChar (c : Char) : List Nat :=
  let n := c.toNat
  if n < 128 then [n]
  else if n < 2048 then [192 + n / 64, 128 + n % 64]
  else if n < 65536 then [224 + n / 4096, 128 + n / 64 % 64, 128 + n % 64]
  else
    [240 + n / 262144, 128 + n / 4096 % 64, 128 + n / 64 % 64, 128 + n % 64]

def utf8Encode (s : String) : List Nat := s.data.flatMap utf8EncodeChar

def isCont (b : Nat) : Bool := 128 ≤ b && b < 192

/-- Decode one UTF-8 sequence starting with lead byte `b`, followed by `bs`;
returns the character (U+FFFD on an invalid sequence) and the remaining
bytes. -/
def utf8Step (b : Nat) (bs : List Nat) : Char × List Nat :=
  if b < 128 then (Char.ofNat b, bs)
  else if 192 ≤ b ∧ b < 224 then
    match bs with
    | b2 :: bs2 =>
      if isCont b2 then (Char.ofNat ((b - 192) * 64 + (b2 - 128)), bs2)
      else (Char.ofNat 65533, b2 :: bs2)
    | [] => (Char.ofNat 65533, [])
  else if 224 ≤ b ∧ b < 240 then
    match bs with
    | b2 :: b3 :: bs3 =>
      if isCont b2 && isCont b3 then
        (Char.ofNat ((b - 224) * 4096 + (b2 - 128) * 64 + (b3 - 128)), bs3)
      else (Char.ofNat 65533, b2 :: b3 :: bs3)
    | rest => (Char.ofNat 65533, rest)
  else if 240 ≤ b ∧ b < 248 then
    match bs with
    | b2 :: b3 :: b4 :: bs4 =>
      if isCont b2 && isCont b3 && isCont b4 then
        (Char.ofNat ((b - 240) * 262144 + (b2 - 128) * 4096 + (b3 - 128) * 64 + (b4 - 128)),
         bs4)
      else (Char.ofNat 65533, b2 :: b3 :: b4 :: bs4)
    | rest => (Char.ofNat 65533, rest)
  else (Char.ofNat 65533, bs)

def utf8DecodeAux : Nat → List Nat → List Char
  | 0, _ => []
  | _, [] => []
  | fuel + 1, b :: bs => (utf8Step b bs).1 :: utf8DecodeAux fuel (utf8Step b bs).2

/-- Lenient UTF-8 decoding (invalid sequences become U+FFFD), as
`buffer.toString('utf8')` behaves; every step consumes at least the lead
byte, so fuel equal to the length suffices. -/
def utf8Decode (bs : List Nat) : List Char := utf8DecodeAux bs.length bs

def b64Alphabet : List Char :=
  ['A', 'B', 'C', 'D', 'E', 'F', 'G', 'H', 'I', 'J', 'K', 'L', 'M',
   'N', 'O', 'P', 'Q', 'R', 'S', 'T', 'U', 'V', 'W', 'X', 'Y', 'Z',
   'a', 'b', 'c', 'd', 'e', 'f', 'g', 'h', 'i', 'j', 'k', 'l', 'm',
   'n', 'o', 'p', 'q', 'r', 's', 't', 'u', 'v', 'w', 'x', 'y', 'z',
   '0', '1', '2', '3', '4', '5', '6', '7', '8', '9', '+', '/']

def b64Digit (n : Nat) : Char := b64Alphabet.getD n 'A'

def b64Val (c : Char) : Option Nat :=
  if 'A' ≤ c ∧ c ≤ 'Z' then some (c.toNat - 65)
  else if 'a' ≤ c ∧ c ≤ 'z' then some (c.toNat - 97 + 26)
  else if '0' ≤ c ∧ c ≤ '9' then some (c.toNat - 48 + 52)
  else if c = '+' then some 62
  else if c = '/' then some 63
  else none

def base64EncodeBytes : List Nat → List Char
  | [] => []
  | [a] => [b64Digit (a / 4), b64Digit (a % 4 * 16), '=', '=']
  | [a, b] => [b64Digit (a / 4), b64Digit (a % 4 * 16 + b / 16), b64Digit (b % 16 * 4), '=']
  | a :: b :: c :: rest =>
    b64Digit (a / 4) :: b64Digit (a % 4 * 16 + b / 16) ::
      b64Digit (b % 16 * 4 + c / 64) :: b64Digit (c % 64) :: base64EncodeBytes rest

def b64Groups : List Nat → List Nat
  | a :: b :: c :: d :: rest =>
    (a * 4 + b / 16) :: (b % 16 * 16 + c / 4) :: (c % 4 * 64 + d) :: b64Groups rest
  | [a, b] => [a * 4 + b / 16]
  | [a, b, c] => [a * 4 + b / 16, b % 16 * 16 + c / 4]
  | _ => []

/-- Lenient base64 decoding (non-alphabet characters ignored), as
`Buffer.from(s, 'base64')` behaves. -/
def base64DecodeBytes (cs : List Char) : List Nat := b64Groups (cs.filterMap b64Val)

/-- `Buffer.from(content, 'utf8').toString('base64')`. -/
def base64OfString (s : String) : String := String.mk (base64EncodeBytes (utf8Encode s))

/-- `Buffer.from(content, 'base64').toString('utf8')`. -/
def stringOfBase64 (s : String) : String := String.mk (utf8Decode (base64DecodeBytes s.data))

/-! ### Model of `new URL(s).origin` -/

def isPrefixList : List Char → List Char → Bool
  | [], _ => true
  | _ :: _, [] => false
  | a :: as, b :: bs => a = b && isPrefixList as bs

/-- Model of the WHATWG `new URL(s).origin` builtin, restricted to plain
absolute http/https URLs; `none` models the constructor throwing. -/
def urlOrigin (s : String) : Option String :=
  let scheme :=
    if isPrefixList "https://".data s.data then some ("https", s.data.drop 8)
    else if isPrefixList "http://".data s.data then some ("http", s.data.drop 7)
    else none
  match scheme with
  | none => none
  | some (sch, rest) =>
    let host := rest.takeWhile fun c => ¬(c = '/' || c = '?' || c = '#')
    if host = [] then none else some (sch ++ "://" ++ String.mk host)

/-! ### The handler (src/api/orders.js) -/

def storeDataPath : String := "data/store-data.json"

/-- Incoming request: method, the two headers the handler reads, and the body
(`none` = absent / `undefined`). -/
structure Req where
  method : String
  origin : Option String
  referer : Option String
  body : Option Json

/-- Process environment: the three required values and the optional branch. -/
structure Env where
  token : Option String
  owner : Option String
  repo : Option String
  branch : Option String

/-- Shape of a successful document-store GET (`{content, sha}` per the store
contract). -/
structure FileResp where
  content : String
  sha : String

/-- Responses the document store will give to the (at most one) GET and the
(at most one) PUT of a request; `.error (status, text)` is a non-2xx reply. -/
structure Store where
  getResp : Except (Nat × String) FileResp
  putResp : Except (Nat × String) Unit

/-- Body of the store PUT built by `putFile`. -/
structure PutBody where
  message : String
  content : String
  branch : String
  sha : Option String

/-- Network calls issued to the document store, in order. -/
inductive Call where
  | get (owner repo path branch : String)
  | put (owner repo path : String) (body : PutBody)

structure HttpOut where
  status : Nat
  headers : List (String × String)
  body : Option Json

/-- Outcome of one invocation: an HTTP response, or an exception escaping the
handler. -/
inductive HResult where
  | resp (r : HttpOut)
  | thrown (msg : String)

/-- Lines 11-19: `corsHeaders(origin)`. -/
def corsHeaders (origin : String) : List (String × String) :=
  [("Access-Control-Allow-Origin", if origin = "" then "*" else origin),
   ("Access-Control-Allow-Methods", "GET, POST, OPTIONS"),
   ("Access-Control-Allow-Headers", "Content-Type"),
   ("Access-Control-Max-Age", "86400")]

/-- Line 54.  JS precedence makes it
`(origin || Referer) ? new URL(Referer || "https://example.com").origin : "*"`;
`none` models the `URL` constructor throwing. -/
def originOf (origin referer : Option String) : Option String :=
  if truthyS origin || truthyS referer then
    urlOrigin (if truthyS referer then referer.getD "" else "https://example.com")
  else some "*"

/-- Model of `String.prototype.trim`. -/
def jsTrim (s : String) : String :=
  String.mk (((s.data.dropWhile isWsC).reverse.dropWhile isWsC).reverse)

/-- Line 71: `(process.env.GITHUB_BRANCH || "main").trim() || "main"`. -/
def branchOf (b : Option String) : String :=
  let s := jsTrim (match b with | some s => if s = "" then "main" else s | none => "main")
  if s = "" then "main" else s

/-- Lines 80-87: `typeof req.body === "object" && req.body !== null ?
req.body : JSON.parse(req.body || "\x7b\x7d")`; `.error` means the `catch`
branch (400 Invalid JSON body) is taken. -/
def parseOrder (body : Option Json) : Except Unit Json :=
  match body with
  | some j =>
    match j with
    | .obj _ => .ok j
    | .arr _ => .ok j
    | _ =>
      match jsonParse (if jsTruthy j then jsToString j else "\x7b\x7d") with
      | some v => .ok v
      | none => .error ()
  | none =>
    match jsonParse "\x7b\x7d" with
    | some v => .ok v
    | none => .error ()

/-- Lines 95-96: assign `id` and `status` defaults on a (necessarily object)
order; non-objects are returned unchanged, but validation only lets objects
reach this point. -/
def normalizeOrder (order : Json) (now : Nat) : Json :=
  match order with
  | .obj fs =>
    let idv :=
      match lookupField fs "id" with
      | some v => if jsTruthy v then v else Json.str ("ord-" ++ natReprS now)
      | none => Json.str ("ord-" ++ natReprS now)
    let fs1 := setField fs "id" idv
    let stv :=
      match lookupField fs1 "status" with
      | some v => if jsTruthy v then v else Json.str "pending"
      | none => Json.str "pending"
    Json.obj (setField fs1 "status" stv)
  | j => j

/-- The `orders` list the handler works with: the fetched document's `orders`
field if it is an array, else empty (line 102). -/
def docOrders (data : Json) : List Json :=
  match jsProp data "orders" with
  | some (.arr xs) => xs
  | _ => []

/-- Lines 102-103: ensure `data.orders` is an array, then `unshift(order)`.
On a non-object document the property write throws (strict mode); on an array
document the named property is set but is invisible to `JSON.stringify`. -/
def applyOrder (data order : Json) : Except String Json :=
  match data with
  | .obj fs => .ok (.obj (setField fs "orders" (.arr (order :: docOrders (.obj fs)))))
  | .arr xs => .ok (.arr xs)
  | .null => .error "TypeError: Cannot read properties of null (reading orders)"
  | _ => .error "TypeError: Cannot create property orders on a primitive"

/-- Lines 33-51: the body `putFile` submits (`sha` only when truthy). -/
def mkPutBody (content : String) (sha : String) (branch : String) (message : String) : PutBody :=
  { message := if message = "" then "Add order via Orders API" else message
    content := base64OfString content
    branch := branch
    sha := if sha = "" then none else some sha }

def errorBody (msg : String) : Json := .obj [("error", .str msg)]

def failBody (detail : String) : Json :=
  .obj [("error", .str "Failed to save order"), ("detail", .str detail)]

/-- Placeholder for the engine-specific `SyntaxError` message of
`JSON.parse`. -/
def jsonSyntaxMsg : String := "Unexpected token in JSON"

/-- Lines 98-112: the `try`/`catch` block around the read-modify-write, for a
normalized `order`. -/
def tryBlock (origin owner repo branch : String) (store : Store) (order : Json) :
    HResult × List Call :=
  let gcall := Call.get owner repo storeDataPath branch
  match store.getResp with
  | .error e =>
    (.resp ⟨500, corsHeaders origin,
      some (failBody ("GitHub GET failed: " ++ natReprS e.1 ++ " " ++ e.2))⟩,
     [gcall])
  | .ok file =>
    match jsonParse (stringOfBase64 file.content) with
    | none =>
      (.resp ⟨500, corsHeaders origin, some (failBody jsonSyntaxMsg)⟩, [gcall])
    | some data =>
      match applyOrder data order with
      | .error m =>
        (.resp ⟨500, corsHeaders origin, some (failBody m)⟩, [gcall])
      | .ok newDoc =>
        let idv := (jsProp order "id").getD .null
        let pbody :=
          mkPutBody (stringify2 newDoc) file.sha branch ("Add order " ++ jsToString idv)
        let pcall := Call.put owner repo storeDataPath pbody
        match store.putResp with
        | .error e =>
          (.resp ⟨500, corsHeaders origin,
            some (failBody ("GitHub PUT failed: " ++ natReprS e.1 ++ " " ++ e.2))⟩,
           [gcall, pcall])
        | .ok _ =>
          (.resp ⟨200, corsHeaders origin,
            some (.obj [("ok", .bool true), ("id", idv)])⟩,
           [gcall, pcall])

/-- Lines 68-112: the POST path after method dispatch. -/
def postCore (origin : String) (body : Option Json) (env : Env) (store : Store) (now : Nat) :
    HResult × List Call :=
  let branch := branchOf env.branch
  if ¬truthyS env.token ∨ ¬truthyS env.owner ∨ ¬truthyS env.repo then
    (.resp ⟨500, corsHeaders origin,
      some (errorBody "Orders API not configured (missing env)")⟩, [])
  else
    match parseOrder body with
    | .error _ =>
      (.resp ⟨400, corsHeaders origin, some (errorBody "Invalid JSON body")⟩, [])
    | .ok order0 =>
      if order0.isNull then
        (.thrown "TypeError: Cannot read properties of null (reading fullName)", [])
      else if ¬truthyO (jsProp order0 "fullName") ∧ ¬truthyO (jsProp order0 "phone") then
        (.resp ⟨400, corsHeaders origin,
          some (errorBody "Order must include fullName and phone")⟩, [])
      else
        tryBlock origin (env.owner.getD "") (env.repo.getD "") branch store
          (normalizeOrder order0 now)

/-- Lines 53-113: the handler.  Returns the outcome and the ordered list of
document-store calls performed. -/
def handler (req : Req) (env : Env) (store : Store) (now : Nat) : HResult × List Call :=
  match originOf req.origin req.referer with
  | none => (.thrown "TypeError: Invalid URL", [])
  | some origin =>
    if req.method = "OPTIONS" then
      (.resp ⟨204, corsHeaders origin, none⟩, [])
    else if req.method ≠ "POST" then
      (.resp ⟨405, corsHeaders origin, some (errorBody "Method not allowed")⟩, [])
    else
      postCore origin req.body env store now

/-- Format `^ord-\d+$` of generated order ids. -/
def isOrdId (s : String) : Bool :=
  match s.data with
  | 'o' :: 'r' :: 'd' :: '-' :: ds => ds ≠ [] && ds.all Char.isDigit
  | _ => false

/-- The head of the remaining input is not a decimal digit (so a parsed
number cannot swallow it). -/
def noDigitHead : List Char → Bool
  | [] => true
  | c :: _ => !c.isDigit

/-- The head of the remaining input can neither extend a number nor start a
fraction or exponent. -/
def numBoundary : List Char → Bool
  | [] => true
  | c :: _ => !(c.isDigit || c = '.' || c = 'e' || c = 'E')

/-! ### Concrete fixtures used by witnesses and counterexamples -/

def wOrder : Json := .obj [("fullName", .str "Ann"), ("phone", .str "123")]

def wNorm : Json :=
  .obj [("fullName", .str "Ann"), ("phone", .str "123"),
        ("id", .str "ord-7"), ("status", .str "pending")]

def wReq : Req := ⟨"POST", none, none, some wOrder⟩

def wEnv : Env := ⟨some "tok", some "own", some "rep", none⟩

def wContent : String := "\x7b\"orders\": []\x7d"

def wFile : FileResp := ⟨base64OfString wContent, "sha1"⟩

def wData : Json := .obj [("orders", .arr [])]

def wNewDoc : Json := .obj [("orders", .arr [wNorm])]

def wStore : Store := ⟨.ok wFile, .ok ()⟩

def wStorePutFail : Store := ⟨.ok wFile, .error (409, "conflict")⟩

def emptyEnv : Env := ⟨none, none, none, none⟩

def idleStore : Store := ⟨.error (500, ""), .error (500, "")⟩

def bugReq : Req := ⟨"OPTIONS", some "https://shop.example", none, none⟩

/-! ## Basic lemmas about object field update -/

theorem lookup_setField_same (fs : List (String × Json)) (k : String) (v : Json) :
    lookupField (setField fs k v) k = some v := by
  induction fs with
  | nil => simp [setField, lookupField]
  | cons e fs ih =>
    obtain ⟨k1, v1⟩ := e
    by_cases h : k1 = k
    · simp [setField, h, lookupField]
    · simp [setField, h, lookupField, ih]

theorem lookup_setField_ne (fs : List (String × Json)) (k k2 : String) (v : Json)
    (h : k ≠ k2) : lookupField (setField fs k v) k2 = lookupField fs k2 := by
  induction fs with
  | nil => simp [setField, lookupField, h]
  | cons e fs ih =>
    obtain ⟨k1, v1⟩ := e
    by_cases h1 : k1 = k
    · subst h1
      simp [setField, lookupField, h]
    · by_cases h2 : k1 = k2
      · subst h2
        simp [setField, h1, lookupField, Ne.symm h]
      · simp [setField, h1, lookupField, h2, ih]

/-! ## Decimal digits of natural numbers -/

theorem digitChar_isDigit : ∀ n, n < 10 → (digitChar n).isDigit = true := by decide

theorem natReprAux_digits :
    ∀ fuel n, n < fuel →
      (natReprAux fuel n).all Char.isDigit = true ∧ natReprAux fuel n ≠ [] := by
  intro fuel
  induction fuel with
  | zero => omega
  | succ fuel ih =>
    intro n hn
    by_cases h : n < 10
    · simp [natReprAux, h, digitChar_isDigit n h]
    · have hd : n / 10 < fuel := by
        have h1 : n / 10 < n := Nat.div_lt_self (by omega) (by omega)
        omega
      have hrec := ih (n / 10) hd
      simp [natReprAux, h, List.all_append, hrec.1,
        digitChar_isDigit (n % 10) (Nat.mod_lt n (by omega))]

theorem natReprC_digits (n : Nat) :
    (natReprC n).all Char.isDigit = true ∧ natReprC n ≠ [] :=
  natReprAux_digits (n + 1) n (by omega)

theorem isOrdId_generated (now : Nat) : isOrdId ("ord-" ++ natReprS now) = true := by
  have h : ("ord-" ++ natReprS now).data = 'o' :: 'r' :: 'd' :: '-' :: natReprC now := by
    simp [String.data_append, natReprS]
  obtain ⟨h1, h2⟩ := natReprC_digits now
  simp [isOrdId, h, h1, h2]

/-! ## Handler path lemmas -/

theorem handler_post (req : Req) (env : Env) (store : Store) (now : Nat) (o : String)
    (ho : originOf req.origin req.referer = some o) (hm : req.method = "POST") :
    handler req env store now = postCore o req.body env store now := by
  unfold handler
  rw [ho, hm]
  simp

theorem postCore_envMissing (o : String) (body : Option Json) (env : Env) (store : Store)
    (now : Nat)
    (h : truthyS env.token = false ∨ truthyS env.owner = false ∨ truthyS env.repo = false) :
    postCore o body env store now =
      (.resp ⟨500, corsHeaders o,
        some (errorBody "Orders API not configured (missing env)")⟩, []) := by
  unfold postCore
  have hc : ¬truthyS env.token ∨ ¬truthyS env.owner ∨ ¬truthyS env.repo := by
    rcases h with h | h | h <;> simp [h]
  rw [if_pos hc]

theorem postCore_parsed (o : String) (body : Option Json) (env : Env) (store : Store)
    (now : Nat) (order0 : Json)
    (ht : truthyS env.token = true) (hw : truthyS env.owner = true)
    (hr : truthyS env.repo = true) (hp : parseOrder body = .ok order0) :
    postCore o body env store now =
      if order0.isNull then
        (.thrown "TypeError: Cannot read properties of null (reading fullName)", [])
      else if ¬truthyO (jsProp order0 "fullName") ∧ ¬truthyO (jsProp order0 "phone") then
        (.resp ⟨400, corsHeaders o,
          some (errorBody "Order must include fullName and phone")⟩, [])
      else
        tryBlock o (env.owner.getD "") (env.repo.getD "") (branchOf env.branch) store
          (normalizeOrder order0 now) := by
  unfold postCore
  rw [if_neg, hp]
  simp [ht, hw, hr]

theorem tryBlock_getFail (o owner repo branch : String) (store : Store) (order : Json)
    (st : Nat) (txt : String) (hg : store.getResp = .error (st, txt)) :
    tryBlock o owner repo branch store order =
      (.resp ⟨500, corsHeaders o,
        some (failBody ("GitHub GET failed: " ++ natReprS st ++ " " ++ txt))⟩,
       [Call.get owner repo storeDataPath branch]) := by
  unfold tryBlock
  rw [hg]

theorem tryBlock_putFail (o owner repo branch : String) (store : Store) (order : Json)
    (file : FileResp) (data newDoc : Json) (st : Nat) (txt : String)
    (hg : store.getResp = .ok file)
    (hd : jsonParse (stringOfBase64 file.content) = some data)
    (ha : applyOrder data order = .ok newDoc)
    (hp : store.putResp = .error (st, txt)) :
    tryBlock o owner repo branch store order =
      (.resp ⟨500, corsHeaders o,
        some (failBody ("GitHub PUT failed: " ++ natReprS st ++ " " ++ txt))⟩,
       [Call.get owner repo storeDataPath branch,
        Call.put owner repo storeDataPath
          (mkPutBody (stringify2 newDoc) file.sha branch
            ("Add order " ++ jsToString ((jsProp order "id").getD .null)))]) := by
  unfold tryBlock
  simp only [hg, hd, ha, hp]

theorem tryBlock_success (o owner repo branch : String) (store : Store) (order : Json)
    (file : FileResp) (data newDoc : Json)
    (hg : store.getResp = .ok file)
    (hd : jsonParse (stringOfBase64 file.content) = some data)
    (ha : applyOrder data order = .ok newDoc)
    (hp : store.putResp = .ok ()) :
    tryBlock o owner repo branch store order =
      (.resp ⟨200, corsHeaders o,
        some (.obj [("ok", .bool true), ("id", (jsProp order "id").getD .null)])⟩,
       [Call.get owner repo storeDataPath branch,
        Call.put owner repo storeDataPath
          (mkPutBody (stringify2 newDoc) file.sha branch
            ("Add order " ++ jsToString ((jsProp order "id").getD .null)))]) := by
  unfold tryBlock
  simp only [hg, hd, ha, hp]

theorem tryBlock_status (o owner repo branch : String) (store : Store) (order : Json)
    (r : HttpOut) (h : (tryBlock o owner repo branch store order).1 = .resp r) :
    r.status = 200 ∨ r.status = 500 := by
  unfold tryBlock at h
  rcases hg : store.getResp with e | file
  · simp only [hg] at h
    cases h
    simp
  · simp only [hg] at h
    rcases hd : jsonParse (stringOfBase64 file.content) with _ | data
    · simp only [hd] at h
      cases h
      simp
    · simp only [hd] at h
      rcases ha : applyOrder data order with m | newDoc
      · simp only [ha] at h
        cases h
        simp
      · simp only [ha] at h
        rcases hp : store.putResp with e | u
        · simp only [hp] at h
          cases h
          simp
        · simp only [hp] at h
          cases h
          simp

theorem handler_run_valid (req : Req) (env : Env) (store : Store) (now : Nat) (o : String)
    (order0 : Json)
    (ho : originOf req.origin req.referer = some o) (hm : req.method = "POST")
    (ht : truthyS env.token = true) (hw : truthyS env.owner = true)
    (hr : truthyS env.repo = true) (hp : parseOrder req.body = .ok order0)
    (hnn : order0.isNull = false)
    (hv : truthyO (jsProp order0 "fullName") = true ∨ truthyO (jsProp order0 "phone") = true) :
    handler req env store now =
      tryBlock o (env.owner.getD "") (env.repo.getD "") (branchOf env.branch) store
        (normalizeOrder order0 now) := by
  rw [handler_post req env store now o ho hm,
    postCore_parsed o req.body env store now order0 ht hw hr hp]
  rw [if_neg, if_neg]
  · rcases hv with hv | hv <;> simp [hv]
  · simp [hnn]

/-! ## Normalization lemmas -/

theorem normalize_id_default (fs : List (String × Json)) (now : Nat)
    (h : truthyO (lookupField fs "id") = false) :
    jsProp (normalizeOrder (.obj fs) now) "id" = some (.str ("ord-" ++ natReprS now)) := by
  simp only [normalizeOrder, jsProp]
  rw [lookup_setField_ne _ _ _ _ (by decide), lookup_setField_same]
  rcases hl : lookupField fs "id" with _ | v
  · rfl
  · rw [hl] at h
    simp [truthyO] at h
    simp [h]

theorem normalize_id_keep (fs : List (String × Json)) (now : Nat) (v : Json)
    (h : lookupField fs "id" = some v) (ht : jsTruthy v = true) :
    jsProp (normalizeOrder (.obj fs) now) "id" = some v := by
  simp only [normalizeOrder, jsProp]
  rw [lookup_setField_ne _ _ _ _ (by decide), lookup_setField_same, h]
  simp [ht]

theorem normalize_status_default (fs : List (String × Json)) (now : Nat)
    (h : truthyO (lookupField fs "status") = false) :
    jsProp (normalizeOrder (.obj fs) now) "status" = some (.str "pending") := by
  simp only [normalizeOrder, jsProp]
  rw [lookup_setField_same]
  rw [lookup_setField_ne _ _ _ _ (by decide)]
  rcases hl : lookupField fs "status" with _ | v
  · rfl
  · rw [hl] at h
    simp [truthyO] at h
    simp [h]

theorem normalize_status_keep (fs : List (String × Json)) (now : Nat) (v : Json)
    (h : lookupField fs "status" = some v) (ht : jsTruthy v = true) :
    jsProp (normalizeOrder (.obj fs) now) "status" = some v := by
  simp only [normalizeOrder, jsProp]
  rw [lookup_setField_same]
  rw [lookup_setField_ne _ _ _ _ (by decide), h]
  simp [ht]

theorem normalize_frame (fs : List (String × Json)) (now : Nat) (k : String)
    (h1 : k ≠ "id") (h2 : k ≠ "status") :
    jsProp (normalizeOrder (.obj fs) now) k = lookupField fs k := by
  simp only [normalizeOrder, jsProp]
  rw [lookup_setField_ne _ _ _ _ (Ne.symm h2), lookup_setField_ne _ _ _ _ (Ne.symm h1)]

/-! ## String helpers -/

theorem str_data_injective (s t : String) (h : s.data = t.data) : s = t := by
  cases s
  cases t
  exact congrArg String.mk h

theorem str_append_ne_empty (a x : String) (hne : a.data ≠ []) : a ++ x ≠ "" := by
  intro h
  have hd := congrArg String.data h
  rw [String.data_append] at hd
  rcases he : a.data with _ | ⟨c, cs⟩
  · exact hne he
  · rw [he] at hd
    simp at hd

theorem str_append_assoc (a b c : String) : a ++ b ++ c = a ++ (b ++ c) :=
  str_data_injective _ _ (by simp [String.data_append, List.append_assoc])

theorem str_append_empty (a : String) : a ++ "" = a :=
  str_data_injective _ _ (by simp [String.data_append])

/-! ## Claim theorems -/

/-- C2: whenever the document-store write is rejected, the handler responds
500 with body `{error: "Failed to save order", detail: msg}` where `msg` is
`"GitHub PUT failed: " ++ status ++ " " ++ responseBody` (so it contains both
the store status code and the store response body), and the request performs
exactly one GET and one PUT — no retry and no re-fetch. -/
theorem write_rejected_responds_500_no_retry
    (req : Req) (env : Env) (store : Store) (now : Nat) (o : String) (order0 : Json)
    (file : FileResp) (data newDoc : Json) (st : Nat) (txt : String)
    (ho : originOf req.origin req.referer = some o) (hm : req.method = "POST")
    (ht : truthyS env.token = true) (hw : truthyS env.owner = true)
    (hr : truthyS env.repo = true) (hp : parseOrder req.body = .ok order0)
    (hnn : order0.isNull = false)
    (hv : truthyO (jsProp order0 "fullName") = true ∨ truthyO (jsProp order0 "phone") = true)
    (hg : store.getResp = .ok file)
    (hd : jsonParse (stringOfBase64 file.content) = some data)
    (ha : applyOrder data (normalizeOrder order0 now) = .ok newDoc)
    (hput : store.putResp = .error (st, txt)) :
    handler req env store now =
      (.resp ⟨500, corsHeaders o,
        some (failBody ("GitHub PUT failed: " ++ natReprS st ++ " " ++ txt))⟩,
       [Call.get (env.owner.getD "") (env.repo.getD "") storeDataPath (branchOf env.branch),
        Call.put (env.owner.getD "") (env.repo.getD "") storeDataPath
          (mkPutBody (stringify2 newDoc) file.sha (branchOf env.branch)
            ("Add order " ++ jsToString ((jsProp (normalizeOrder order0 now) "id").getD .null)))])
    ∧ (∃ a b, "GitHub PUT failed: " ++ natReprS st ++ " " ++ txt = a ++ natReprS st ++ b)
    ∧ (∃ a b, "GitHub PUT failed: " ++ natReprS st ++ " " ++ txt = a ++ txt ++ b) := by
  refine ⟨?_, ⟨"GitHub PUT failed: ", " " ++ txt, ?_⟩,
    ⟨"GitHub PUT failed: " ++ natReprS st ++ " ", "", ?_⟩⟩
  · rw [handler_run_valid req env store now o order0 ho hm ht hw hr hp hnn hv]
    exact tryBlock_putFail o _ _ _ store _ file data newDoc st txt hg hd ha hput
  · rw [str_append_assoc, str_append_assoc]
  · rw [str_append_empty, str_append_assoc]

/-- Witness for the PUT-rejection theorem at a concrete stale-version
conflict. -/
theorem write_rejected_responds_500_no_retry_witness :
    handler wReq wEnv wStorePutFail 7 =
      (.resp ⟨500, corsHeaders "*", some (failBody "GitHub PUT failed: 409 conflict")⟩,
       [Call.get "own" "rep" storeDataPath "main",
        Call.put "own" "rep" storeDataPath
          (mkPutBody (stringify2 wNewDoc) "sha1" "main" "Add order ord-7")]) := by
  have h := write_rejected_responds_500_no_retry wReq wEnv wStorePutFail 7 "*" wOrder
    wFile wData wNewDoc 409 "conflict" rfl rfl rfl rfl rfl rfl rfl (Or.inl rfl)
    rfl rfl rfl rfl
  exact h.1

/-- C3: on the success path the PUT call goes to the same path and branch as
the GET, and its body carries exactly the version token (`sha`) obtained from
the fetch, the updated document pretty-printed with 2-space indent (base64
encoded), and the commit message `"Add order " + order.id`. -/
theorem write_carries_sha_content_message
    (req : Req) (env : Env) (store : Store) (now : Nat) (o : String) (order0 : Json)
    (file : FileResp) (data newDoc : Json)
    (ho : originOf req.origin req.referer = some o) (hm : req.method = "POST")
    (ht : truthyS env.token = true) (hw : truthyS env.owner = true)
    (hr : truthyS env.repo = true) (hp : parseOrder req.body = .ok order0)
    (hnn : order0.isNull = false)
    (hv : truthyO (jsProp order0 "fullName") = true ∨ truthyO (jsProp order0 "phone") = true)
    (hg : store.getResp = .ok file)
    (hd : jsonParse (stringOfBase64 file.content) = some data)
    (ha : applyOrder data (normalizeOrder order0 now) = .ok newDoc)
    (hsha : file.sha ≠ "")
    (hput : store.putResp = .ok ()) :
    handler req env store now =
      (.resp ⟨200, corsHeaders o,
        some (.obj [("ok", .bool true),
          ("id", (jsProp (normalizeOrder order0 now) "id").getD .null)])⟩,
       [Call.get (env.owner.getD "") (env.repo.getD "") storeDataPath (branchOf env.branch),
        Call.put (env.owner.getD "") (env.repo.getD "") storeDataPath
          { message :=
              "Add order " ++ jsToString ((jsProp (normalizeOrder order0 now) "id").getD .null)
            content := base64OfString (stringify2 newDoc)
            branch := branchOf env.branch
            sha := some file.sha }]) := by
  rw [handler_run_valid req env store now o order0 ho hm ht hw hr hp hnn hv]
  rw [tryBlock_success o _ _ _ store _ file data newDoc hg hd ha hput]
  have hmsg :
      "Add order " ++ jsToString ((jsProp (normalizeOrder order0 now) "id").getD .null) ≠ "" :=
    str_append_ne_empty _ _ (by decide)
  simp only [mkPutBody, if_neg hmsg, if_neg hsha]

/-- Witness for the PUT-content theorem at a concrete successful request. -/
theorem write_carries_sha_content_message_witness :
    handler wReq wEnv wStore 7 =
      (.resp ⟨200, corsHeaders "*", some (.obj [("ok", .bool true), ("id", .str "ord-7")])⟩,
       [Call.get "own" "rep" storeDataPath "main",
        Call.put "own" "rep" storeDataPath
          { message := "Add order ord-7"
            content := base64OfString (stringify2 wNewDoc)
            branch := "main"
            sha := some "sha1" }]) :=
  write_carries_sha_content_message wReq wEnv wStore 7 "*" wOrder wFile wData wNewDoc
    rfl rfl rfl rfl rfl rfl rfl (Or.inl rfl) rfl rfl rfl (by decide) rfl

/-- C4: for a parsed (non-null) order, the handler responds 400 with
`{error: "Order must include fullName and phone"}` exactly when both the
`fullName` and the `phone` fields are falsy, and in that case no
document-store call is made. -/
theorem validation_400_iff_missing_fields
    (req : Req) (env : Env) (store : Store) (now : Nat) (o : String) (order0 : Json)
    (ho : originOf req.origin req.referer = some o) (hm : req.method = "POST")
    (ht : truthyS env.token = true) (hw : truthyS env.owner = true)
    (hr : truthyS env.repo = true) (hp : parseOrder req.body = .ok order0)
    (hnn : order0.isNull = false) :
    ((handler req env store now).1 =
        .resp ⟨400, corsHeaders o, some (errorBody "Order must include fullName and phone")⟩
      ↔ truthyO (jsProp order0 "fullName") = false ∧ truthyO (jsProp order0 "phone") = false)
    ∧ (truthyO (jsProp order0 "fullName") = false ∧ truthyO (jsProp order0 "phone") = false →
        (handler req env store now).2 = []) := by
  rw [handler_post req env store now o ho hm,
    postCore_parsed o req.body env store now order0 ht hw hr hp]
  by_cases hc : truthyO (jsProp order0 "fullName") = false ∧ truthyO (jsProp order0 "phone") = false
  · rw [if_neg (by simp [hnn]), if_pos (by simp [hc.1, hc.2])]
    exact ⟨by simp [hc.1, hc.2], fun _ => rfl⟩
  · rw [if_neg (by simp [hnn]), if_neg (by simpa [Decidable.not_and_iff_or_not,
      Bool.not_eq_true, Bool.not_eq_false] using hc)]
    constructor
    · constructor
      · intro hresp
        rcases tryBlock_status o (env.owner.getD "") (env.repo.getD "")
          (branchOf env.branch) store (normalizeOrder order0 now) _ hresp with h2 | h2 <;>
          simp at h2
      · intro habs
        exact absurd habs hc
    · intro habs
      exact absurd habs hc

/-- Witness for the validation theorem: an order with only a phone number is
accepted, one with neither field gets the 400 with no store calls. -/
theorem validation_400_iff_missing_fields_witness :
    ((handler ⟨"POST", none, none, some (.obj [("note", .str "hi")])⟩ wEnv wStore 7).1 =
        .resp ⟨400, corsHeaders "*", some (errorBody "Order must include fullName and phone")⟩)
    ∧ (handler ⟨"POST", none, none, some (.obj [("note", .str "hi")])⟩ wEnv wStore 7).2 = []
    ∧ ¬((handler wReq wEnv wStore 7).1 =
        .resp ⟨400, corsHeaders "*", some (errorBody "Order must include fullName and phone")⟩) := by
  have h1 := validation_400_iff_missing_fields
    ⟨"POST", none, none, some (.obj [("note", .str "hi")])⟩ wEnv wStore 7 "*"
    (.obj [("note", .str "hi")]) rfl rfl rfl rfl rfl rfl rfl
  have h2 := validation_400_iff_missing_fields wReq wEnv wStore 7 "*" wOrder
    rfl rfl rfl rfl rfl rfl rfl
  refine ⟨h1.1.mpr ⟨rfl, rfl⟩, h1.2 ⟨rfl, rfl⟩, fun habs => ?_⟩
  have := h2.1.mp habs
  simp [wOrder, jsProp, lookupField, truthyO, jsTruthy] at this

/-- C5 (code bug): the Access-Control-Allow-Origin header does not echo the
request origin header.  With `origin: https://shop.example` present and no
`Referer`, JS operator precedence on line 54 makes the handler compute
`new URL("https://example.com").origin`, so the response carries
`Access-Control-Allow-Origin: https://example.com` instead of echoing the
caller's origin. -/
theorem cors_acao_code_bug :
    bugReq.origin = some "https://shop.example"
    ∧ (handler bugReq emptyEnv idleStore 0).1 =
        .resp ⟨204,
          [("Access-Control-Allow-Origin", "https://example.com"),
           ("Access-Control-Allow-Methods", "GET, POST, OPTIONS"),
           ("Access-Control-Allow-Headers", "Content-Type"),
           ("Access-Control-Max-Age", "86400")], none⟩
    ∧ "https://example.com" ≠ "https://shop.example" :=
  ⟨rfl, rfl, by decide⟩

/-- C6: a POST with any of the three required configuration values missing is
answered 500 with exactly `{error: "Orders API not configured (missing env)"}`
and zero document-store calls; the branch value defaults to `"main"` when the
branch variable is absent. -/
theorem missing_env_500_no_calls
    (req : Req) (env : Env) (store : Store) (now : Nat) (o : String)
    (ho : originOf req.origin req.referer = some o) (hm : req.method = "POST")
    (hmiss : truthyS env.token = false ∨ truthyS env.owner = false ∨
      truthyS env.repo = false) :
    handler req env store now =
      (.resp ⟨500, corsHeaders o,
        some (errorBody "Orders API not configured (missing env)")⟩, [])
    ∧ branchOf none = "main" := by
  constructor
  · rw [handler_post req env store now o ho hm]
    exact postCore_envMissing o req.body env store now hmiss
  · rfl

/-- Witness for the missing-configuration theorem with no token set. -/
theorem missing_env_500_no_calls_witness :
    handler wReq ⟨none, some "own", some "rep", none⟩ wStore 7 =
      (.resp ⟨500, corsHeaders "*",
        some (errorBody "Orders API not configured (missing env)")⟩, [])
    ∧ branchOf none = "main" :=
  missing_env_500_no_calls wReq ⟨none, some "own", some "rep", none⟩ wStore 7 "*"
    rfl rfl (Or.inl rfl)

/-- C10: a syntactically valid JSON body consisting of the string `"null"`
parses to `null`, and the property read `order.fullName` at the validation
step then throws; the exception escapes the handler, so no HTTP response is
produced and no store call is made. -/
theorem null_json_body_throws
    (req : Req) (env : Env) (store : Store) (now : Nat) (o : String)
    (ho : originOf req.origin req.referer = some o) (hm : req.method = "POST")
    (ht : truthyS env.token = true) (hw : truthyS env.owner = true)
    (hr : truthyS env.repo = true) (hb : req.body = some (.str "null")) :
    jsonParse "null" = some .null
    ∧ handler req env store now =
        (.thrown "TypeError: Cannot read properties of null (reading fullName)", []) := by
  refine ⟨rfl, ?_⟩
  rw [handler_post req env store now o ho hm]
  have hp : parseOrder req.body = .ok .null := by rw [hb]; rfl
  rw [postCore_parsed o req.body env store now .null ht hw hr hp]
  rfl

/-- Witness for the null-body crash at a concrete request. -/
theorem null_json_body_throws_witness :
    jsonParse "null" = some .null
    ∧ handler ⟨"POST", none, none, some (.str "null")⟩ wEnv wStore 7 =
        (.thrown "TypeError: Cannot read properties of null (reading fullName)", []) :=
  null_json_body_throws ⟨"POST", none, none, some (.str "null")⟩ wEnv wStore 7 "*"
    rfl rfl rfl rfl rfl rfl

/-- C8: normalization assigns `id = "ord-" + now` exactly when `id` is falsy
(and that id matches `^ord-\d+$`), assigns `status = "pending"` exactly when
`status` is falsy, leaves every other field unchanged, and a successful call
returns exactly the normalized order's id in the response body. -/
theorem normalization_exact (fs : List (String × Json)) (now : Nat) :
    (truthyO (lookupField fs "id") = false →
        jsProp (normalizeOrder (.obj fs) now) "id" = some (.str ("ord-" ++ natReprS now))
        ∧ isOrdId ("ord-" ++ natReprS now) = true)
    ∧ (∀ v, lookupField fs "id" = some v → jsTruthy v = true →
        jsProp (normalizeOrder (.obj fs) now) "id" = some v)
    ∧ (truthyO (lookupField fs "status") = false →
        jsProp (normalizeOrder (.obj fs) now) "status" = some (.str "pending"))
    ∧ (∀ v, lookupField fs "status" = some v → jsTruthy v = true →
        jsProp (normalizeOrder (.obj fs) now) "status" = some v)
    ∧ (∀ k, k ≠ "id" → k ≠ "status" →
        jsProp (normalizeOrder (.obj fs) now) k = lookupField fs k)
    ∧ (∀ (req : Req) (env : Env) (store : Store) (o : String) (file : FileResp)
        (data newDoc : Json),
        originOf req.origin req.referer = some o → req.method = "POST" →
        truthyS env.token = true → truthyS env.owner = true → truthyS env.repo = true →
        parseOrder req.body = .ok (.obj fs) →
        (truthyO (jsProp (.obj fs) "fullName") = true ∨
          truthyO (jsProp (.obj fs) "phone") = true) →
        store.getResp = .ok file →
        jsonParse (stringOfBase64 file.content) = some data →
        applyOrder data (normalizeOrder (.obj fs) now) = .ok newDoc →
        store.putResp = .ok () →
        (handler req env store now).1 =
          .resp ⟨200, corsHeaders o,
            some (.obj [("ok", .bool true),
              ("id", (jsProp (normalizeOrder (.obj fs) now) "id").getD .null)])⟩) := by
  refine ⟨fun h => ⟨normalize_id_default fs now h, isOrdId_generated now⟩,
    fun v hl htr => normalize_id_keep fs now v hl htr,
    fun h => normalize_status_default fs now h,
    fun v hl htr => normalize_status_keep fs now v hl htr,
    fun k h1 h2 => normalize_frame fs now k h1 h2,
    fun req env store o file data newDoc ho hm ht hw hr hp hv hg hd ha hput => ?_⟩
  rw [handler_run_valid req env store now o (.obj fs) ho hm ht hw hr hp rfl hv,
    tryBlock_success o _ _ _ store _ file data newDoc hg hd ha hput]

/-- Witness for the normalization theorem: a generated id, a kept caller id,
and the 200 response carrying the generated id. -/
theorem normalization_exact_witness :
    jsProp (normalizeOrder wOrder 7) "id" = some (.str "ord-7")
    ∧ isOrdId "ord-7" = true
    ∧ jsProp (normalizeOrder (.obj [("fullName", .str "Ann"), ("id", .str "my-id")]) 7) "id" =
        some (.str "my-id")
    ∧ jsProp (normalizeOrder wOrder 7) "fullName" = some (.str "Ann")
    ∧ (handler wReq wEnv wStore 7).1 =
        .resp ⟨200, corsHeaders "*",
          some (.obj [("ok", .bool true), ("id", .str "ord-7")])⟩ := by
  have h1 := normalization_exact [("fullName", .str "Ann"), ("phone", .str "123")] 7
  have h2 := normalization_exact [("fullName", .str "Ann"), ("id", .str "my-id")] 7
  obtain ⟨hid, _⟩ := h1.1 rfl
  refine ⟨hid, isOrdId_generated 7, ?_, ?_, ?_⟩
  · exact h2.2.1 (.str "my-id") rfl rfl
  · exact h1.2.2.2.2.1 "fullName" (by decide) (by decide)
  · exact h1.2.2.2.2.2 wReq wEnv wStore "*" wFile wData wNewDoc rfl rfl rfl rfl rfl rfl
      (Or.inl rfl) rfl rfl rfl rfl

/-! ## Whitespace lemmas -/

theorem str_mk_data (s : String) : String.mk s.data = s := by cases s; rfl

theorem skipWs_cons_ws (c : Char) (cs : List Char) (h : isWsC c = true) :
    skipWs (c :: cs) = skipWs cs := by simp [skipWs, h]

theorem skipWs_cons_nonws (c : Char) (cs : List Char) (h : isWsC c = false) :
    skipWs (c :: cs) = c :: cs := by simp [skipWs, h]

theorem skipWs_replicate (n : Nat) (cs : List Char) :
    skipWs (List.replicate n ' ' ++ cs) = skipWs cs := by
  induction n with
  | zero => rfl
  | succ n ih => simpa [List.replicate_succ, skipWs, isWsC] using ih

theorem skipWs_indent (d : Nat) (cs : List Char) :
    skipWs (indentC d ++ cs) = skipWs cs := skipWs_replicate (2 * d) cs

theorem skipWs_idem (cs : List Char) : skipWs (skipWs cs) = skipWs cs := by
  induction cs with
  | nil => rfl
  | cons c cs ih =>
    by_cases h : isWsC c = true
    · simp [skipWs, h, ih]
    · simp [skipWs, h]

theorem parseVal_skipEq (fuel : Nat) (cs cs2 : List Char) (h : skipWs cs = skipWs cs2) :
    parseVal fuel cs = parseVal fuel cs2 := by
  cases fuel with
  | zero => rfl
  | succ f => simp only [parseVal]; rw [h]

theorem parseArrItems_skipWs (fuel : Nat) (cs : List Char) :
    parseArrItems fuel (skipWs cs) = parseArrItems fuel cs := by
  cases fuel with
  | zero => rfl
  | succ f =>
    simp only [parseArrItems]
    rw [parseVal_skipEq f (skipWs cs) cs (skipWs_idem cs)]

theorem parseObjItems_skipWs (fuel : Nat) (cs : List Char) :
    parseObjItems fuel (skipWs cs) = parseObjItems fuel cs := by
  cases fuel with
  | zero => rfl
  | succ f =>
    simp only [parseObjItems]
    rw [skipWs_idem cs]

/-! ## Digit parsing lemmas -/

theorem digitVal_digitChar : ∀ n, n < 10 → digitVal (digitChar n) = n := by decide

theorem digit_not_special (c : Char) (h : c.isDigit = true) :
    isWsC c = false ∧ (c = 'n') = False ∧ (c = 't') = False ∧ (c = 'f') = False ∧
      (c = '"') = False ∧ (c = '-') = False ∧ (c = '[') = False ∧ (c = lbrace) = False ∧
      (c = ']') = False ∧ (c = ',') = False ∧ (c = ':') = False ∧ (c = rbrace) = False := by
  refine ⟨?_, ?_, ?_, ?_, ?_, ?_, ?_, ?_, ?_, ?_, ?_, ?_⟩
  · cases hw : isWsC c
    · rfl
    · simp only [isWsC, Bool.or_eq_true, decide_eq_true_eq] at hw
      rcases hw with ((hc | hc) | hc) | hc <;> subst hc <;> exact absurd h (by decide)
  all_goals
    apply eq_false
    intro hc
    subst hc
    exact absurd h (by decide)

theorem takeDigitsC_nodigit (rest : List Char) (h : noDigitHead rest = true) :
    takeDigitsC rest = ([], rest) := by
  cases rest with
  | nil => rfl
  | cons c cs =>
    simp only [noDigitHead, Bool.not_eq_true'] at h
    simp [takeDigitsC, h]

theorem takeDigitsC_append (l : List Char) :
    ∀ rest : List Char, l.all Char.isDigit = true → noDigitHead rest = true →
      takeDigitsC (l ++ rest) = (l, rest) := by
  induction l with
  | nil => intro rest _ hrest; exact takeDigitsC_nodigit rest hrest
  | cons c l ih =>
    intro rest hall hrest
    simp only [List.all_cons, Bool.and_eq_true] at hall
    simp [takeDigitsC, hall.1, ih rest hall.2 hrest]

theorem numBoundary_head (c : Char) (t : List Char) (h : numBoundary (c :: t) = true) :
    c.isDigit = false ∧ (c = '.') = False ∧ (c = 'e') = False ∧ (c = 'E') = False := by
  simp only [numBoundary, Bool.not_eq_true', Bool.or_eq_false_iff,
    decide_eq_false_iff_not] at h
  exact ⟨h.1.1.1, eq_false h.1.1.2, eq_false h.1.2, eq_false h.2⟩

theorem numBoundary_noDigitHead (rest : List Char) (h : numBoundary rest = true) :
    noDigitHead rest = true := by
  cases rest with
  | nil => rfl
  | cons c t =>
    obtain ⟨h1, _, _, _⟩ := numBoundary_head c t h
    simp [noDigitHead, h1]

theorem parseFracPart_boundary (rest : List Char) (h : numBoundary rest = true) :
    parseFracPart rest = some ([], rest) := by
  cases rest with
  | nil => rfl
  | cons c t =>
    obtain ⟨_, h2, _, _⟩ := numBoundary_head c t h
    simp [parseFracPart, h2]

theorem parseExpPart_boundary (rest : List Char) (h : numBoundary rest = true) :
    parseExpPart rest = some (false, [], rest) := by
  cases rest with
  | nil => rfl
  | cons c t =>
    obtain ⟨_, _, h3, h4⟩ := numBoundary_head c t h
    simp [parseExpPart, h3, h4]

theorem natReprAux_foldl :
    ∀ fuel n acc, n < fuel →
      (natReprAux fuel n).foldl (fun a c => a * 10 + digitVal c) acc =
        acc * 10 ^ (natReprAux fuel n).length + n := by
  intro fuel
  induction fuel with
  | zero => omega
  | succ fuel ih =>
    intro n acc hn
    by_cases h : n < 10
    · rw [natReprAux, if_pos h]
      simp [digitVal_digitChar n h, pow_one]
    · have hd : n / 10 < fuel := by
        have h1 : n / 10 < n := Nat.div_lt_self (by omega) (by omega)
        omega
      have hmod := digitVal_digitChar (n % 10) (Nat.mod_lt n (by omega))
      rw [natReprAux, if_neg h, List.foldl_append]
      simp only [List.foldl_cons, List.foldl_nil]
      rw [ih (n / 10) acc hd, hmod, List.length_append, List.length_cons, List.length_nil]
      have h10 : n / 10 * 10 + n % 10 = n := by omega
      have hpow : 10 ^ ((natReprAux fuel (n / 10)).length + (0 + 1)) =
          10 ^ (natReprAux fuel (n / 10)).length * 10 := by
        rw [Nat.zero_add, pow_succ]
      rw [hpow]
      have hring : (acc * 10 ^ (natReprAux fuel (n / 10)).length + n / 10) * 10 + n % 10 =
          acc * (10 ^ (natReprAux fuel (n / 10)).length * 10) + (n / 10 * 10 + n % 10) := by
        ring
      rw [hring, h10]

theorem digitsValN_natReprC (n : Nat) : digitsValN (natReprC n) = n := by
  have := natReprAux_foldl (n + 1) n 0 (by omega)
  simpa [digitsValN, natReprC] using this

theorem natReprAux_small (f n : Nat) (hf : 0 < f) (hn : n < 10) :
    natReprAux f n = [digitChar n] := by
  cases f with
  | zero => omega
  | succ f => rw [natReprAux, if_pos hn]

theorem natReprC_small (n : Nat) (h : n < 10) : natReprC n = [digitChar n] :=
  natReprAux_small (n + 1) n (by omega) h

theorem digitChar_ne_zero : ∀ m, m < 10 → 1 ≤ m → (digitChar m = '0') = False := by decide

theorem natReprAux_head_ne_zero :
    ∀ fuel n, n < fuel → 10 ≤ n →
      ∃ hd tl, natReprAux fuel n = hd :: tl ∧ (hd = '0') = False := by
  intro fuel
  induction fuel with
  | zero => omega
  | succ f ih =>
    intro n hn h10
    rw [natReprAux, if_neg (by omega)]
    by_cases hq : 10 ≤ n / 10
    · have hd : n / 10 < f := by
        have h1 : n / 10 < n := Nat.div_lt_self (by omega) (by omega)
        omega
      obtain ⟨hd0, tl0, heq, hne⟩ := ih (n / 10) hd hq
      exact ⟨hd0, tl0 ++ [digitChar (n % 10)], by rw [heq]; rfl, hne⟩
    · have h2 : n / 10 < 10 := by omega
      rw [natReprAux_small f (n / 10) (by omega) h2]
      exact ⟨digitChar (n / 10), [digitChar (n % 10)], rfl,
        digitChar_ne_zero (n / 10) h2 (by omega)⟩

theorem natReprC_head_ne_zero (n : Nat) (h : 10 ≤ n) :
    ∃ hd tl, natReprC n = hd :: tl ∧ (hd = '0') = False :=
  natReprAux_head_ne_zero (n + 1) n (by omega) h

theorem numValue_int_only (l : List Char) : numValue l [] false [] = digitsValN l := by
  simp [numValue, digitsValN]

/-- A canonically printed natural number parses back under the RFC 8259
number grammar, whenever the remaining input cannot extend the number. -/
theorem parseNumber_natReprC (n : Nat) (rest : List Char) (hb : numBoundary rest = true) :
    ∃ dg ds, natReprC n = dg :: ds ∧ dg.isDigit = true ∧
      parseNumber dg (ds ++ rest) = some (n, rest) := by
  have hnd := numBoundary_noDigitHead rest hb
  obtain ⟨hall, hne⟩ := natReprC_digits n
  have hip : ∃ dg ds, natReprC n = dg :: ds ∧
      parseIntPart dg (ds ++ rest) = some (dg :: ds, rest) := by
    by_cases h10 : 10 ≤ n
    · obtain ⟨dg, ds, heq, hz⟩ := natReprC_head_ne_zero n h10
      refine ⟨dg, ds, heq, ?_⟩
      rw [heq] at hall
      simp only [List.all_cons, Bool.and_eq_true] at hall
      rw [parseIntPart.eq_def, if_neg (by simp [hz]),
        takeDigitsC_append ds rest hall.2 hnd]
    · by_cases h0 : n = 0
      · subst h0
        refine ⟨'0', [], by rw [natReprC_small 0 (by omega)]; rfl, ?_⟩
        cases rest with
        | nil => rfl
        | cons c t =>
          obtain ⟨h1, _, _, _⟩ := numBoundary_head c t hb
          simp [parseIntPart, h1]
      · have hlt : n < 10 := by omega
        refine ⟨digitChar n, [], natReprC_small n hlt, ?_⟩
        have hz := digitChar_ne_zero n hlt (by omega)
        rw [parseIntPart.eq_def, if_neg (by simp [hz]), List.nil_append,
          takeDigitsC_nodigit rest hnd]
  obtain ⟨dg, ds, heq, hip2⟩ := hip
  have hdg : dg.isDigit = true := by
    rw [heq] at hall
    simp only [List.all_cons, Bool.and_eq_true] at hall
    exact hall.1
  refine ⟨dg, ds, heq, hdg, ?_⟩
  have hfrac := parseFracPart_boundary rest hb
  have hexp := parseExpPart_boundary rest hb
  simp only [parseNumber, hip2, hfrac, hexp, numValue_int_only]
  rw [show digitsValN (dg :: ds) = n from by rw [← heq, digitsValN_natReprC]]

/-! ## String literal round trip -/

theorem hexVal_hexDig : ∀ m, m < 16 → hexVal (hexDig m) = some m := by decide

theorem parseStrBody_escChar (c : Char) (tail rest k : List Char)
    (ih : parseStrBody tail = some (k, rest)) :
    parseStrBody (escChar c ++ tail) = some (c :: k, rest) := by
  unfold escChar
  split_ifs with h1 h2 h3 h4 h5 h6 h7 h8
  · subst h1
    rw [List.cons_append, List.cons_append, List.nil_append, parseStrBody.eq_def]
    simp [escCodeChar, ih]
  · subst h2
    rw [List.cons_append, List.cons_append, List.nil_append, parseStrBody.eq_def]
    simp [escCodeChar, ih]
  · subst h3
    rw [List.cons_append, List.cons_append, List.nil_append, parseStrBody.eq_def]
    simp [escCodeChar, ih]
  · subst h4
    rw [List.cons_append, List.cons_append, List.nil_append, parseStrBody.eq_def]
    simp [escCodeChar, ih]
  · subst h5
    rw [List.cons_append, List.cons_append, List.nil_append, parseStrBody.eq_def]
    simp [escCodeChar, ih]
  · have hc : Char.ofNat 8 = c := by rw [← h6, Char.ofNat_toNat]
    rw [List.cons_append, List.cons_append, List.nil_append, parseStrBody.eq_def]
    simp [escCodeChar, ih]
    exact hc
  · have hc : Char.ofNat 12 = c := by rw [← h7, Char.ofNat_toNat]
    rw [List.cons_append, List.cons_append, List.nil_append, parseStrBody.eq_def]
    simp [escCodeChar, ih]
    exact hc
  · have e0 : hexVal '0' = some 0 := by decide
    have e1 := hexVal_hexDig (c.toNat / 16) (by omega)
    have e2 := hexVal_hexDig (c.toNat % 16) (by omega)
    simp only [List.cons_append, List.nil_append]
    rw [parseStrBody.eq_def]
    simp [e0, e1, e2, ih]
    rw [show c.toNat / 16 * 16 + c.toNat % 16 = c.toNat from by omega, Char.ofNat_toNat]
  · rw [List.cons_append, List.nil_append, parseStrBody.eq_def]
    simp [h1, h2, ih]
    omega

theorem parseStrBody_escStr : ∀ (l rest : List Char),
    parseStrBody (escStr l ++ '"' :: rest) = some (l, rest) := by
  intro l
  induction l with
  | nil =>
    intro rest
    rw [escStr, List.nil_append, parseStrBody.eq_def]
    simp
  | cons c cs ih =>
    intro rest
    rw [escStr, List.append_assoc]
    exact parseStrBody_escChar c _ rest cs (ih rest)

/-! ## Parser step lemmas -/

theorem parseVal_null_step (f : Nat) (rest : List Char) :
    parseVal (f + 1) ('n' :: 'u' :: 'l' :: 'l' :: rest) = some (.null, rest) := rfl

theorem parseVal_true_step (f : Nat) (rest : List Char) :
    parseVal (f + 1) ('t' :: 'r' :: 'u' :: 'e' :: rest) = some (.bool true, rest) := rfl

theorem parseVal_false_step (f : Nat) (rest : List Char) :
    parseVal (f + 1) ('f' :: 'a' :: 'l' :: 's' :: 'e' :: rest) = some (.bool false, rest) := rfl

theorem parseVal_str_step (f : Nat) (cs1 : List Char) :
    parseVal (f + 1) ('"' :: cs1) =
      match parseStrBody cs1 with
      | some (s, r) => some (.str (String.mk s), r)
      | none => none := rfl

theorem parseVal_neg_step (f : Nat) (cs1 : List Char) :
    parseVal (f + 1) ('-' :: cs1) =
      match cs1 with
      | d :: cs2 =>
        if d.isDigit then
          match parseNumber d cs2 with
          | some (v, r) => some (.num (-(v : Int)), r)
          | none => none
        else none
      | [] => none := rfl

theorem parseVal_digit_step (f : Nat) (dg : Char) (cs1 : List Char)
    (hdig : dg.isDigit = true) :
    parseVal (f + 1) (dg :: cs1) =
      match parseNumber dg cs1 with
      | some (v, r) => some (.num (v : Int), r)
      | none => none := by
  obtain ⟨hw, hn, ht, hf2, hq, hm, hlb, hbb, _, _, _, _⟩ := digit_not_special dg hdig
  simp only [parseVal]
  rw [skipWs_cons_nonws _ _ hw]
  simp [hn, ht, hf2, hq, hm, hlb, hbb, hdig]

theorem parseVal_lbrack_step (f : Nat) (cs1 : List Char) :
    parseVal (f + 1) ('[' :: cs1) =
      (match skipWs cs1 with
       | c2 :: r =>
         if c2 = ']' then some (.arr [], r)
         else
           match parseArrItems f (c2 :: r) with
           | some (xs, r2) => some (.arr xs, r2)
           | none => none
       | [] => none) := rfl

theorem parseVal_lbrace_step (f : Nat) (cs1 : List Char) :
    parseVal (f + 1) (lbrace :: cs1) =
      (match skipWs cs1 with
       | c2 :: r =>
         if c2 = rbrace then some (.obj [], r)
         else
           match parseObjItems f (c2 :: r) with
           | some (fs, r2) => some (.obj fs, r2)
           | none => none
       | [] => none) := rfl

/-- Every printed JSON value starts with a character that is not whitespace,
not a closing bracket and not a closing brace. -/
theorem printJ_head (d : Nat) (j : Json) :
    ∃ c t, printJ d j = c :: t ∧ isWsC c = false ∧ (c = ']') = False ∧ (c = rbrace) = False := by
  cases j with
  | num n =>
    by_cases hn : n < 0
    · refine ⟨'-', natReprC n.natAbs, by simp [printJ, intReprC, hn], ?_, ?_, ?_⟩ <;> decide
    · obtain ⟨hall, hne⟩ := natReprC_digits n.toNat
      rcases hl : natReprC n.toNat with _ | ⟨dg, ds⟩
      · exact absurd hl hne
      · rw [hl] at hall
        simp only [List.all_cons, Bool.and_eq_true] at hall
        obtain ⟨hw, _, _, _, _, _, _, _, hrb, _, _, hbb⟩ := digit_not_special dg hall.1
        refine ⟨dg, ds, ?_, hw, hrb, hbb⟩
        simp [printJ, intReprC, hn, hl]
  | null => refine ⟨'n', _, rfl, ?_, ?_, ?_⟩ <;> decide
  | bool b =>
    cases b with
    | false => refine ⟨'f', _, rfl, ?_, ?_, ?_⟩ <;> decide
    | true => refine ⟨'t', _, rfl, ?_, ?_, ?_⟩ <;> decide
  | str s => refine ⟨'"', _, rfl, ?_, ?_, ?_⟩ <;> decide
  | arr xs =>
    cases xs with
    | nil => refine ⟨'[', _, rfl, ?_, ?_, ?_⟩ <;> decide
    | cons x xs => refine ⟨'[', _, rfl, ?_, ?_, ?_⟩ <;> decide
  | obj fs =>
    cases fs with
    | nil => refine ⟨lbrace, _, rfl, ?_, ?_, ?_⟩ <;> decide
    | cons e es => refine ⟨lbrace, _, rfl, ?_, ?_, ?_⟩ <;> decide

theorem jsize_pos (j : Json) : 1 ≤ jsize j := by
  cases j <;> simp [jsize]

theorem skipWs_printItems (d : Nat) (x : Json) (xs : List Json) (R : List Char) :
    ∃ c0 r', skipWs (printItems d (x :: xs) ++ R) = c0 :: r'
      ∧ (c0 = ']') = False ∧ (c0 = rbrace) = False := by
  obtain ⟨c0, t0, hpr, hnw, hne, hne2⟩ := printJ_head d x
  cases xs with
  | nil =>
    refine ⟨c0, t0 ++ R, ?_, hne, hne2⟩
    have h1 : printItems d [x] = indentC d ++ printJ d x := by simp [printItems]
    rw [h1, List.append_assoc, skipWs_indent, hpr, List.cons_append]
    exact skipWs_cons_nonws _ _ hnw
  | cons y ys =>
    refine ⟨c0, t0 ++ (',' :: '\n' :: printItems d (y :: ys) ++ R), ?_, hne, hne2⟩
    have h1 : printItems d (x :: y :: ys) =
        indentC d ++ (printJ d x ++ ',' :: '\n' :: printItems d (y :: ys)) := by
      simp [printItems]
    rw [h1, List.append_assoc, skipWs_indent, hpr]
    simp only [List.cons_append, List.append_assoc]
    exact skipWs_cons_nonws _ _ hnw

theorem skipWs_printEntries (d : Nat) (en : String × Json) (es : List (String × Json))
    (R : List Char) :
    ∃ r', skipWs (printEntries d (en :: es) ++ R) = '"' :: r' := by
  cases es with
  | nil =>
    refine ⟨escStr en.1.data ++ '"' :: ':' :: ' ' :: printJ d en.2 ++ R, ?_⟩
    have h1 : printEntries d [en] =
        indentC d ++ ('"' :: (escStr en.1.data ++ '"' :: ':' :: ' ' :: printJ d en.2)) := by
      simp [printEntries]
    rw [h1, List.append_assoc, skipWs_indent]
    simp only [List.cons_append, List.append_assoc]
    exact skipWs_cons_nonws _ _ (by decide)
  | cons e2 es2 =>
    refine ⟨escStr en.1.data ++ '"' :: ':' :: ' ' :: printJ d en.2 ++
      ',' :: '\n' :: printEntries d (e2 :: es2) ++ R, ?_⟩
    have h1 : printEntries d (en :: e2 :: es2) =
        indentC d ++ ('"' :: (escStr en.1.data ++ '"' :: ':' :: ' ' :: printJ d en.2)) ++
          ',' :: '\n' :: printEntries d (e2 :: es2) := by
      simp [printEntries]
    rw [h1]
    simp only [List.cons_append, List.append_assoc]
    rw [skipWs_indent]
    exact skipWs_cons_nonws _ _ (by decide)


theorem parseVal_cons_ws (fuel : Nat) (c : Char) (h : isWsC c = true) (cs : List Char) :
    parseVal fuel (c :: cs) = parseVal fuel cs :=
  parseVal_skipEq _ _ _ (skipWs_cons_ws c cs h)

theorem parseVal_indent (fuel d : Nat) (cs : List Char) :
    parseVal fuel (indentC d ++ cs) = parseVal fuel cs :=
  parseVal_skipEq _ _ _ (skipWs_indent d cs)

theorem parseArrItems_cons_ws (fuel : Nat) (c : Char) (h : isWsC c = true) (cs : List Char) :
    parseArrItems fuel (c :: cs) = parseArrItems fuel cs := by
  rw [← parseArrItems_skipWs fuel (c :: cs), skipWs_cons_ws c cs h, parseArrItems_skipWs]

theorem parseObjItems_cons_ws (fuel : Nat) (c : Char) (h : isWsC c = true) (cs : List Char) :
    parseObjItems fuel (c :: cs) = parseObjItems fuel cs := by
  rw [← parseObjItems_skipWs fuel (c :: cs), skipWs_cons_ws c cs h, parseObjItems_skipWs]

theorem roundtrip_all : ∀ fuel : Nat,
    (∀ (j : Json) (d : Nat) (rest : List Char), jsize j ≤ fuel → numBoundary rest = true →
      parseVal fuel (printJ d j ++ rest) = some (j, rest))
    ∧ (∀ (x : Json) (xs : List Json) (d e : Nat) (rest : List Char),
        jsizeL (x :: xs) ≤ fuel →
        parseArrItems fuel
            (printItems d (x :: xs) ++ '\n' :: (indentC e ++ ']' :: rest)) =
          some (x :: xs, rest))
    ∧ (∀ (en : String × Json) (es : List (String × Json)) (d e : Nat) (rest : List Char),
        jsizeO (en :: es) ≤ fuel →
        parseObjItems fuel
            (printEntries d (en :: es) ++ '\n' :: (indentC e ++ rbrace :: rest)) =
          some (en :: es, rest)) := by
  intro fuel
  induction fuel with
  | zero =>
    refine ⟨fun j d rest hf _ => ?_, fun x xs d e rest hf => ?_, fun en es d e rest hf => ?_⟩
    · exact absurd hf (by have := jsize_pos j; omega)
    · exact absurd hf (by simp [jsizeL])
    · exact absurd hf (by simp [jsizeO])
  | succ f ih =>
    obtain ⟨ihv, ihi, ihe⟩ := ih
    refine ⟨fun j d rest hf hr => ?_, fun x xs d e rest hf => ?_, fun en es d e rest hf => ?_⟩
    · -- values
      cases j with
      | null =>
        have h1 : printJ d Json.null = ['n', 'u', 'l', 'l'] := by simp [printJ]
        rw [h1]
        exact parseVal_null_step f rest
      | bool b =>
        cases b with
        | true =>
          have h1 : printJ d (Json.bool true) = ['t', 'r', 'u', 'e'] := by simp [printJ]
          rw [h1]
          exact parseVal_true_step f rest
        | false =>
          have h1 : printJ d (Json.bool false) = ['f', 'a', 'l', 's', 'e'] := by
            simp [printJ]
          rw [h1]
          exact parseVal_false_step f rest
      | num n =>
        by_cases hn : n < 0
        · have h1 : printJ d (Json.num n) = '-' :: natReprC n.natAbs := by
            simp [printJ, intReprC, hn]
          obtain ⟨dg, ds, hl, hdig, hparse⟩ := parseNumber_natReprC n.natAbs rest hr
          rw [h1, hl, List.cons_append, List.cons_append]
          rw [parseVal_neg_step]
          simp only [hdig, if_true, hparse]
          try
            (have hval : -((n.natAbs : Nat) : Int) = n := by omega
             rw [hval])
        · have h1 : printJ d (Json.num n) = natReprC n.toNat := by
            simp [printJ, intReprC, hn]
          obtain ⟨dg, ds, hl, hdig, hparse⟩ := parseNumber_natReprC n.toNat rest hr
          rw [h1, hl, List.cons_append]
          rw [parseVal_digit_step f dg (ds ++ rest) hdig]
          simp only [hparse]
          try
            (have hval : ((n.toNat : Nat) : Int) = n := by omega
             rw [hval])
      | str s =>
        have h1 : printJ d (Json.str s) = '"' :: (escStr s.data ++ ['"']) := by
          simp [printJ]
        rw [h1]
        simp only [List.cons_append, List.nil_append, List.append_assoc]
        rw [parseVal_str_step, parseStrBody_escStr s.data rest]
        try simp [str_mk_data]
      | arr xs =>
        cases xs with
        | nil =>
          have h1 : printJ d (Json.arr []) = ['[', ']'] := by simp [printJ]
          rw [h1]
          rfl
        | cons x xs =>
          have hfl : jsizeL (x :: xs) ≤ f := by
            simp only [jsize] at hf
            omega
          have h1 : printJ d (Json.arr (x :: xs)) =
              '[' :: '\n' :: (printItems (d + 1) (x :: xs) ++ '\n' :: (indentC d ++ [']'])) := by
            simp [printJ]
          rw [h1]
          simp only [List.cons_append, List.nil_append, List.append_assoc]
          rw [parseVal_lbrack_step]
          rw [skipWs_cons_ws '\n' _ (by decide)]
          obtain ⟨c0, r', hsk, hne, _⟩ :=
            skipWs_printItems (d + 1) x xs ('\n' :: (indentC d ++ ']' :: rest))
          rw [hsk]
          simp only [hne, if_false]
          rw [← hsk, parseArrItems_skipWs]
          simp only [ihi x xs (d + 1) d rest hfl]
      | obj fs =>
        cases fs with
        | nil =>
          have h1 : printJ d (Json.obj []) = [lbrace, rbrace] := by simp [printJ]
          rw [h1]
          rw [List.cons_append, List.cons_append, List.nil_append, parseVal_lbrace_step]
          rw [skipWs_cons_nonws rbrace _ (by decide)]
          simp
        | cons e1 es =>
          have hfl : jsizeO (e1 :: es) ≤ f := by
            simp only [jsize] at hf
            omega
          have h1 : printJ d (Json.obj (e1 :: es)) =
              lbrace :: '\n' ::
                (printEntries (d + 1) (e1 :: es) ++ '\n' :: (indentC d ++ [rbrace])) := by
            simp [printJ]
          rw [h1]
          simp only [List.cons_append, List.nil_append, List.append_assoc]
          rw [parseVal_lbrace_step]
          rw [skipWs_cons_ws '\n' _ (by decide)]
          obtain ⟨r', hsk⟩ :=
            skipWs_printEntries (d + 1) e1 es ('\n' :: (indentC d ++ rbrace :: rest))
          rw [hsk]
          have hne : (('"' : Char) = rbrace) = False := by decide
          simp only [hne, if_false]
          rw [← hsk, parseObjItems_skipWs]
          simp only [ihe e1 es (d + 1) d rest hfl]
    · -- array items
      simp only [parseArrItems]
      cases xs with
      | nil =>
        have hjx : jsize x ≤ f := by
          simp only [jsizeL] at hf
          omega
        have h1 : printItems d [x] = indentC d ++ printJ d x := by simp [printItems]
        rw [h1]
        simp only [List.cons_append, List.nil_append, List.append_assoc]
        rw [parseVal_indent]
        simp only [ihv x d ('\n' :: (indentC e ++ ']' :: rest)) hjx rfl]
        rw [skipWs_cons_ws '\n' _ (by decide), skipWs_indent,
          skipWs_cons_nonws ']' _ (by decide)]
        simp
      | cons y ys =>
        have hjx : jsize x ≤ f := by
          simp only [jsizeL] at hf
          omega
        have hjl : jsizeL (y :: ys) ≤ f := by
          simp only [jsizeL] at hf ⊢
          omega
        have h1 : printItems d (x :: y :: ys) =
            indentC d ++ (printJ d x ++ ',' :: '\n' :: printItems d (y :: ys)) := by
          simp [printItems]
        rw [h1]
        simp only [List.cons_append, List.nil_append, List.append_assoc]
        rw [parseVal_indent]
        simp only [ihv x d
          (',' :: '\n' :: (printItems d (y :: ys) ++ '\n' :: (indentC e ++ ']' :: rest)))
          hjx rfl]
        rw [skipWs_cons_nonws ',' _ (by decide)]
        simp only [if_pos rfl]
        rw [parseArrItems_cons_ws f '\n' (by decide)]
        simp only [ihi y ys d e rest hjl]
        simp
    · -- object entries
      simp only [parseObjItems]
      have hjv : jsize en.2 ≤ f := by
        simp only [jsizeO] at hf
        omega
      cases es with
      | nil =>
        have h1 : printEntries d [en] =
            indentC d ++ ('"' :: (escStr en.1.data ++ '"' :: ':' :: ' ' :: printJ d en.2)) := by
          simp [printEntries]
        rw [h1]
        simp only [List.cons_append, List.nil_append, List.append_assoc]
        rw [skipWs_indent, skipWs_cons_nonws '"' _ (by decide)]
        simp only [eq_self_iff_true, if_true, parseStrBody_escStr]
        rw [skipWs_cons_nonws ':' _ (by decide)]
        simp only [eq_self_iff_true, if_true]
        rw [parseVal_cons_ws f ' ' (by decide)]
        simp only [ihv en.2 d ('\n' :: (indentC e ++ rbrace :: rest)) hjv rfl]
        rw [skipWs_cons_ws '\n' _ (by decide), skipWs_indent,
          skipWs_cons_nonws rbrace _ (by decide)]
        have hc1 : (rbrace = ',') = False := by decide
        simp [hc1, str_mk_data]
      | cons e2 es2 =>
        have hjl : jsizeO (e2 :: es2) ≤ f := by
          simp only [jsizeO] at hf ⊢
          omega
        have h1 : printEntries d (en :: e2 :: es2) =
            indentC d ++ ('"' :: (escStr en.1.data ++ '"' :: ':' :: ' ' :: printJ d en.2)) ++
              ',' :: '\n' :: printEntries d (e2 :: es2) := by
          simp [printEntries]
        rw [h1]
        simp only [List.cons_append, List.nil_append, List.append_assoc]
        rw [skipWs_indent, skipWs_cons_nonws '"' _ (by decide)]
        simp only [eq_self_iff_true, if_true, parseStrBody_escStr]
        rw [skipWs_cons_nonws ':' _ (by decide)]
        simp only [eq_self_iff_true, if_true]
        rw [parseVal_cons_ws f ' ' (by decide)]
        simp only [ihv en.2 d
          (',' :: '\n' :: (printEntries d (e2 :: es2) ++ '\n' :: (indentC e ++ rbrace :: rest)))
          hjv rfl]
        rw [skipWs_cons_nonws ',' _ (by decide)]
        simp only [eq_self_iff_true, if_true]
        rw [parseObjItems_cons_ws f '\n' (by decide)]
        simp only [ihe e2 es2 d e rest hjl]
        try simp [str_mk_data]

theorem jsize_le_printLen : ∀ N : Nat,
    (∀ (j : Json) (d : Nat), jsize j ≤ N → jsize j ≤ (printJ d j).length)
    ∧ (∀ (x : Json) (xs : List Json) (d : Nat), jsizeL (x :: xs) ≤ N →
        jsizeL (x :: xs) ≤ (printItems d (x :: xs)).length + 1)
    ∧ (∀ (en : String × Json) (es : List (String × Json)) (d : Nat), jsizeO (en :: es) ≤ N →
        jsizeO (en :: es) ≤ (printEntries d (en :: es)).length + 1) := by
  intro N
  induction N with
  | zero =>
    refine ⟨fun j d hf => ?_, fun x xs d hf => ?_, fun en es d hf => ?_⟩
    · exact absurd hf (by have := jsize_pos j; omega)
    · exact absurd hf (by simp [jsizeL])
    · exact absurd hf (by simp [jsizeO])
  | succ f ih =>
    obtain ⟨ihv, ihi, ihe⟩ := ih
    refine ⟨fun j d hf => ?_, fun x xs d hf => ?_, fun en es d hf => ?_⟩
    · cases j with
      | null => simp [jsize, printJ]
      | bool b => cases b <;> simp [jsize, printJ]
      | num n =>
        simp only [jsize, printJ, intReprC]
        by_cases hn : n < 0
        · simp [hn]
        · simp only [hn, if_false]
          have := (natReprC_digits n.toNat).2
          have : 0 < (natReprC n.toNat).length := List.length_pos.mpr this
          omega
      | str s => simp [jsize, printJ]
      | arr xs =>
        cases xs with
        | nil => simp [jsize, jsizeL, printJ]
        | cons x xs =>
          have hb : jsizeL (x :: xs) ≤ f := by
            simp only [jsize] at hf
            omega
          have h2 := ihi x xs (d + 1) hb
          simp only [jsize, printJ, List.length_cons, List.length_append, indentC,
            List.length_replicate, List.length_nil]
          omega
      | obj fs =>
        cases fs with
        | nil => simp [jsize, jsizeO, printJ]
        | cons e1 es =>
          have hb : jsizeO (e1 :: es) ≤ f := by
            simp only [jsize] at hf
            omega
          have h2 := ihe e1 es (d + 1) hb
          simp only [jsize, printJ, List.length_cons, List.length_append, indentC,
            List.length_replicate, List.length_nil]
          omega
    · cases xs with
      | nil =>
        have hb : jsize x ≤ f := by
          simp only [jsizeL] at hf
          omega
        have h2 := ihv x d hb
        simp only [jsizeL, printItems, List.length_append, indentC, List.length_replicate]
        omega
      | cons y ys =>
        have hb1 : jsize x ≤ f := by
          simp only [jsizeL] at hf
          omega
        have hb2 : jsizeL (y :: ys) ≤ f := by
          simp only [jsizeL] at hf ⊢
          omega
        have h2 := ihv x d hb1
        have h3 := ihi y ys d hb2
        simp only [jsizeL, printItems, List.length_append, List.length_cons, indentC,
          List.length_replicate] at h3 ⊢
        omega
    · cases es with
      | nil =>
        have hb : jsize en.2 ≤ f := by
          simp only [jsizeO] at hf
          omega
        have h2 := ihv en.2 d hb
        simp only [jsizeO, printEntries, List.length_append, List.length_cons, indentC,
          List.length_replicate]
        omega
      | cons e2 es2 =>
        have hb1 : jsize en.2 ≤ f := by
          simp only [jsizeO] at hf
          omega
        have hb2 : jsizeO (e2 :: es2) ≤ f := by
          simp only [jsizeO] at hf ⊢
          omega
        have h2 := ihv en.2 d hb1
        have h3 := ihe e2 es2 d hb2
        simp only [jsizeO, printEntries, List.length_append, List.length_cons, indentC,
          List.length_replicate] at h3 ⊢
        omega

/-- `JSON.parse` is a left inverse of `JSON.stringify(·, null, 2)` on the
embedded JSON values. -/
theorem jsonParse_stringify2 (j : Json) : jsonParse (stringify2 j) = some j := by
  have hb := (jsize_le_printLen (jsize j)).1 j 0 (le_refl _)
  unfold jsonParse stringify2
  have hr := (roundtrip_all ((printJ 0 j).length + 1)).1 j 0 [] (by omega) rfl
  rw [List.append_nil] at hr
  have hd : (String.mk (printJ 0 j)).data = printJ 0 j := rfl
  rw [hd]
  simp only [hr]
  simp [skipWs]

theorem applyOrder_obj (fs : List (String × Json)) (order : Json) :
    applyOrder (.obj fs) order =
      .ok (.obj (setField fs "orders" (.arr (order :: docOrders (.obj fs))))) := rfl

theorem docOrders_setField (fs : List (String × Json)) (L : List Json) :
    docOrders (.obj (setField fs "orders" (.arr L))) = L := by
  simp [docOrders, jsProp, lookup_setField_same]

/-- C9: the updated document written by a successful request, when serialized
with `JSON.stringify(·, null, 2)` and re-parsed with `JSON.parse`, parses back
to itself, and its `orders` sequence has the just-submitted normalized order
at its head, field-for-field. -/
theorem updated_doc_roundtrip_head
    (req : Req) (env : Env) (store : Store) (now : Nat) (o : String) (order0 : Json)
    (file : FileResp) (fs : List (String × Json))
    (ho : originOf req.origin req.referer = some o) (hm : req.method = "POST")
    (ht : truthyS env.token = true) (hw : truthyS env.owner = true)
    (hr : truthyS env.repo = true) (hp : parseOrder req.body = .ok order0)
    (hnn : order0.isNull = false)
    (hv : truthyO (jsProp order0 "fullName") = true ∨ truthyO (jsProp order0 "phone") = true)
    (hg : store.getResp = .ok file)
    (hd : jsonParse (stringOfBase64 file.content) = some (.obj fs))
    (hput : store.putResp = .ok ()) :
    (handler req env store now).2 =
      [Call.get (env.owner.getD "") (env.repo.getD "") storeDataPath (branchOf env.branch),
       Call.put (env.owner.getD "") (env.repo.getD "") storeDataPath
         (mkPutBody
           (stringify2 (.obj (setField fs "orders"
             (.arr (normalizeOrder order0 now :: docOrders (.obj fs))))))
           file.sha (branchOf env.branch)
           ("Add order " ++ jsToString ((jsProp (normalizeOrder order0 now) "id").getD .null)))]
    ∧ jsonParse (stringify2 (.obj (setField fs "orders"
        (.arr (normalizeOrder order0 now :: docOrders (.obj fs)))))) =
      some (.obj (setField fs "orders" (.arr (normalizeOrder order0 now :: docOrders (.obj fs)))))
    ∧ jsProp (.obj (setField fs "orders" (.arr (normalizeOrder order0 now :: docOrders (.obj fs)))))
        "orders" = some (.arr (normalizeOrder order0 now :: docOrders (.obj fs)))
    ∧ (normalizeOrder order0 now :: docOrders (.obj fs)).head? =
        some (normalizeOrder order0 now) := by
  refine ⟨?_, jsonParse_stringify2 _, by simp [jsProp, lookup_setField_same], rfl⟩
  rw [handler_run_valid req env store now o order0 ho hm ht hw hr hp hnn hv,
    tryBlock_success o _ _ _ store _ file (.obj fs) _ hg hd (applyOrder_obj fs _) hput]

/-- Witness for the round-trip theorem at a concrete successful request. -/
theorem updated_doc_roundtrip_head_witness :
    (handler wReq wEnv wStore 7).2 =
      [Call.get "own" "rep" storeDataPath "main",
       Call.put "own" "rep" storeDataPath
         (mkPutBody (stringify2 wNewDoc) "sha1" "main" "Add order ord-7")]
    ∧ jsonParse (stringify2 wNewDoc) = some wNewDoc
    ∧ jsProp wNewDoc "orders" = some (.arr [wNorm])
    ∧ ([wNorm] : List Json).head? = some wNorm := by
  have h := updated_doc_roundtrip_head wReq wEnv wStore 7 "*" wOrder wFile
    [("orders", .arr [])] rfl rfl rfl rfl rfl rfl rfl (Or.inl rfl) rfl rfl rfl
  exact h

/-- C1: a successful request writes back the fetched document with the
normalized order prepended (once, at the head) to its `orders` sequence; an
absent or non-array `orders` field is replaced by the empty sequence before
the prepend; and a second successful request that fetches what the first one
wrote produces the orders sequence `[B, A, ...]`, newest first. -/
theorem success_prepends_order
    (req : Req) (env : Env) (store : Store) (now : Nat) (o : String) (order0 : Json)
    (file : FileResp) (fs : List (String × Json))
    (ho : originOf req.origin req.referer = some o) (hm : req.method = "POST")
    (ht : truthyS env.token = true) (hw : truthyS env.owner = true)
    (hr : truthyS env.repo = true) (hp : parseOrder req.body = .ok order0)
    (hnn : order0.isNull = false)
    (hv : truthyO (jsProp order0 "fullName") = true ∨ truthyO (jsProp order0 "phone") = true)
    (hg : store.getResp = .ok file)
    (hd : jsonParse (stringOfBase64 file.content) = some (.obj fs))
    (hput : store.putResp = .ok ()) :
    handler req env store now =
      (.resp ⟨200, corsHeaders o,
        some (.obj [("ok", .bool true),
          ("id", (jsProp (normalizeOrder order0 now) "id").getD .null)])⟩,
       [Call.get (env.owner.getD "") (env.repo.getD "") storeDataPath (branchOf env.branch),
        Call.put (env.owner.getD "") (env.repo.getD "") storeDataPath
          (mkPutBody
            (stringify2 (.obj (setField fs "orders"
              (.arr (normalizeOrder order0 now :: docOrders (.obj fs))))))
            file.sha (branchOf env.branch)
            ("Add order " ++ jsToString ((jsProp (normalizeOrder order0 now) "id").getD .null)))])
    ∧ (normalizeOrder order0 now :: docOrders (.obj fs)).head? =
        some (normalizeOrder order0 now)
    ∧ (lookupField fs "orders" = none → docOrders (.obj fs) = [])
    ∧ (∀ v, lookupField fs "orders" = some v → (∀ xs, v ≠ .arr xs) → docOrders (.obj fs) = [])
    ∧ (∀ xs, lookupField fs "orders" = some (.arr xs) → docOrders (.obj fs) = xs)
    ∧ (∀ (req2 : Req) (env2 : Env) (store2 : Store) (now2 : Nat) (o2 : String)
        (order2 : Json) (file2 : FileResp),
        originOf req2.origin req2.referer = some o2 → req2.method = "POST" →
        truthyS env2.token = true → truthyS env2.owner = true → truthyS env2.repo = true →
        parseOrder req2.body = .ok order2 → order2.isNull = false →
        (truthyO (jsProp order2 "fullName") = true ∨
          truthyO (jsProp order2 "phone") = true) →
        store2.getResp = .ok file2 →
        stringOfBase64 file2.content =
          stringify2 (.obj (setField fs "orders"
            (.arr (normalizeOrder order0 now :: docOrders (.obj fs))))) →
        store2.putResp = .ok () →
        (handler req2 env2 store2 now2).2 =
          [Call.get (env2.owner.getD "") (env2.repo.getD "") storeDataPath
            (branchOf env2.branch),
           Call.put (env2.owner.getD "") (env2.repo.getD "") storeDataPath
            (mkPutBody
              (stringify2 (.obj (setField
                (setField fs "orders"
                  (.arr (normalizeOrder order0 now :: docOrders (.obj fs))))
                "orders"
                (.arr (normalizeOrder order2 now2 ::
                  normalizeOrder order0 now :: docOrders (.obj fs))))))
              file2.sha (branchOf env2.branch)
              ("Add order " ++
                jsToString ((jsProp (normalizeOrder order2 now2) "id").getD .null)))]) := by
  refine ⟨?_, rfl, ?_, ?_, ?_, ?_⟩
  · rw [handler_run_valid req env store now o order0 ho hm ht hw hr hp hnn hv,
      tryBlock_success o _ _ _ store _ file (.obj fs) _ hg hd (applyOrder_obj fs _) hput]
  · intro hnone
    simp [docOrders, jsProp, hnone]
  · intro v hsome hnotarr
    cases v with
    | arr xs => exact absurd rfl (hnotarr xs)
    | null => simp [docOrders, jsProp, hsome]
    | bool b => simp [docOrders, jsProp, hsome]
    | num n => simp [docOrders, jsProp, hsome]
    | str s => simp [docOrders, jsProp, hsome]
    | obj fs2 => simp [docOrders, jsProp, hsome]
  · intro xs hsome
    simp [docOrders, jsProp, hsome]
  · intro req2 env2 store2 now2 o2 order2 file2 ho2 hm2 ht2 hw2 hr2 hp2 hnn2 hv2 hg2
      hcontent hput2
    have hd2 : jsonParse (stringOfBase64 file2.content) =
        some (.obj (setField fs "orders"
          (.arr (normalizeOrder order0 now :: docOrders (.obj fs))))) := by
      rw [hcontent]
      exact jsonParse_stringify2 _
    have happ := applyOrder_obj
      (setField fs "orders" (.arr (normalizeOrder order0 now :: docOrders (.obj fs))))
      (normalizeOrder order2 now2)
    rw [docOrders_setField] at happ
    rw [handler_run_valid req2 env2 store2 now2 o2 order2 ho2 hm2 ht2 hw2 hr2 hp2 hnn2 hv2,
      tryBlock_success o2 _ _ _ store2 _ file2 _ _ hg2 hd2 happ hput2]

set_option maxRecDepth 4096 in
/-- Witness for the prepend theorem: two sequential successful calls at
concrete inputs, the second fetching what the first wrote, give the orders
sequence `[B, A]`. -/
theorem success_prepends_order_witness :
    handler wReq wEnv wStore 7 =
      (.resp ⟨200, corsHeaders "*", some (.obj [("ok", .bool true), ("id", .str "ord-7")])⟩,
       [Call.get "own" "rep" storeDataPath "main",
        Call.put "own" "rep" storeDataPath
          (mkPutBody (stringify2 wNewDoc) "sha1" "main" "Add order ord-7")])
    ∧ (handler ⟨"POST", none, none, some (.obj [("phone", .str "555")])⟩ wEnv
        ⟨.ok ⟨base64OfString (stringify2 wNewDoc), "sha2"⟩, .ok ()⟩ 9).2 =
      [Call.get "own" "rep" storeDataPath "main",
       Call.put "own" "rep" storeDataPath
        (mkPutBody
          (stringify2 (.obj [("orders",
            .arr [.obj [("phone", .str "555"), ("id", .str "ord-9"),
                        ("status", .str "pending")], wNorm])]))
          "sha2" "main" "Add order ord-9")] := by
  have h := success_prepends_order wReq wEnv wStore 7 "*" wOrder wFile
    [("orders", .arr [])] rfl rfl rfl rfl rfl rfl rfl (Or.inl rfl) rfl rfl rfl
  refine ⟨h.1, ?_⟩
  have h2 := h.2.2.2.2.2 ⟨"POST", none, none, some (.obj [("phone", .str "555")])⟩ wEnv
    ⟨.ok ⟨base64OfString (stringify2 wNewDoc), "sha2"⟩, .ok ()⟩ 9 "*"
    (.obj [("phone", .str "555")]) ⟨base64OfString (stringify2 wNewDoc), "sha2"⟩
    rfl rfl rfl rfl rfl rfl rfl (Or.inr rfl) rfl ?_ rfl
  · exact h2
  · show stringOfBase64 (base64OfString (stringify2 wNewDoc)) = stringify2 wNewDoc
    rfl

theorem postCore_parseFail (o : String) (body : Option Json) (env : Env) (store : Store)
    (now : Nat)
    (ht : truthyS env.token = true) (hw : truthyS env.owner = true)
    (hr : truthyS env.repo = true) (hp : parseOrder body = .error ()) :
    postCore o body env store now =
      (.resp ⟨400, corsHeaders o, some (errorBody "Invalid JSON body")⟩, []) := by
  unfold postCore
  rw [if_neg (by simp [ht, hw, hr])]
  simp only [hp]

/-- `postCore` only looks at the body through `parseOrder`. -/
theorem postCore_body_parse_eq (o : String) (b1 b2 : Option Json) (env : Env)
    (store : Store) (now : Nat) (h : parseOrder b1 = parseOrder b2) :
    postCore o b1 env store now = postCore o b2 env store now := by
  unfold postCore
  rw [h]

/-- Two bodies whose parsed orders are non-null and expose neither a
`fullName` nor a `phone` property drive `postCore` to the same outcome: both
stop at the field validation. -/
theorem postCore_unvalidated_eq (o : String) (b1 b2 : Option Json) (env : Env)
    (store : Store) (now : Nat) (o1 o2 : Json)
    (h1 : parseOrder b1 = .ok o1) (h2 : parseOrder b2 = .ok o2)
    (hn1 : o1.isNull = false) (hn2 : o2.isNull = false)
    (hf1 : jsProp o1 "fullName" = none) (hp1 : jsProp o1 "phone" = none)
    (hf2 : jsProp o2 "fullName" = none) (hp2 : jsProp o2 "phone" = none) :
    postCore o b1 env store now = postCore o b2 env store now := by
  by_cases hc : ¬truthyS env.token ∨ ¬truthyS env.owner ∨ ¬truthyS env.repo
  · unfold postCore
    rw [if_pos hc, if_pos hc]
  · unfold postCore
    rw [if_neg hc, if_neg hc]
    simp only [h1, h2, hn1, hn2, hf1, hf2, hp1, hp2]
    simp [truthyO]

/-- The handler only looks at the body through `postCore`. -/
theorem handler_body_eq (method : String) (ro rr : Option String) (b1 b2 : Option Json)
    (env : Env) (store : Store) (now : Nat)
    (h : ∀ o, postCore o b1 env store now = postCore o b2 env store now) :
    handler ⟨method, ro, rr, b1⟩ env store now =
      handler ⟨method, ro, rr, b2⟩ env store now := by
  simp only [handler]
  rcases ho : originOf ro rr with _ | o
  · simp only [ho]
  · simp only [ho]
    by_cases hm : method = "OPTIONS"
    · simp [hm]
    · by_cases hp : method = "POST"
      · simp [hm, hp, h o]
      · simp [hm, hp]

/-- C7 counterexample: the empty-string body is a string that is not valid
JSON, yet the handler does not answer 400 Invalid JSON body for it — the
falsy string falls back to the `"\x7b\x7d"` default and the request proceeds
to field validation (400 Order must include fullName and phone). -/
theorem body_parsing_counterexample :
    jsonParse "" = none
    ∧ parseOrder (some (.str "")) = .ok (.obj [])
    ∧ (handler ⟨"POST", none, none, some (.str "")⟩ wEnv wStore 7).1 =
        .resp ⟨400, corsHeaders "*", some (errorBody "Order must include fullName and phone")⟩
    ∧ errorBody "Order must include fullName and phone" ≠ errorBody "Invalid JSON body" :=
  ⟨rfl, rfl, rfl, by simp [errorBody]⟩

/-- C7 (amended): an already-structured object or array body is used as-is; a
truthy (nonempty) string body that is not valid JSON yields the 400 Invalid
JSON body response; the empty-string body is falsy, falls back to the default
text and is treated as the empty object; and every body that is neither an
object nor a string (including an absent body) is treated as the empty object
in the observable sense: the handler responds and calls the store exactly as
it does when the body is the empty object. -/
theorem body_parsing_amended :
    (∀ fs, parseOrder (some (.obj fs)) = .ok (.obj fs))
    ∧ (∀ xs, parseOrder (some (.arr xs)) = .ok (.arr xs))
    ∧ (∀ s, s ≠ "" → jsonParse s = none →
        parseOrder (some (.str s)) = .error ()
        ∧ ∀ (req : Req) (env : Env) (store : Store) (now : Nat) (o : String),
          originOf req.origin req.referer = some o → req.method = "POST" →
          truthyS env.token = true → truthyS env.owner = true → truthyS env.repo = true →
          req.body = some (.str s) →
          handler req env store now =
            (.resp ⟨400, corsHeaders o, some (errorBody "Invalid JSON body")⟩, []))
    ∧ parseOrder (some (.str "")) = .ok (.obj [])
    ∧ (∀ (b : Option Json) (method : String) (ro rr : Option String)
        (env : Env) (store : Store) (now : Nat),
        (∀ fs, b ≠ some (.obj fs)) → (∀ xs, b ≠ some (.arr xs)) →
        (∀ s, b ≠ some (.str s)) →
        handler ⟨method, ro, rr, b⟩ env store now =
          handler ⟨method, ro, rr, some (.obj [])⟩ env store now) := by
  refine ⟨fun fs => rfl, fun xs => rfl, fun s hs hbad => ⟨?_, ?_⟩, rfl,
    fun b method ro rr env store now hno hna hns => ?_⟩
  · simp only [parseOrder]
    have htr : jsTruthy (.str s) = true := by simp [jsTruthy, hs]
    rw [htr]
    simp only [if_true]
    have hj : jsToString (.str s) = s := rfl
    rw [hj, hbad]
  · intro req env store now o ho hm ht hw hr hb
    rw [handler_post req env store now o ho hm]
    apply postCore_parseFail o req.body env store now ht hw hr
    rw [hb]
    simp only [parseOrder]
    have htr : jsTruthy (.str s) = true := by simp [jsTruthy, hs]
    rw [htr]
    simp only [if_true]
    have hj : jsToString (.str s) = s := rfl
    rw [hj, hbad]
  · cases b with
    | none =>
      exact handler_body_eq method ro rr none (some (.obj [])) env store now
        (fun o => postCore_body_parse_eq o none (some (.obj [])) env store now rfl)
    | some j =>
      cases j with
      | obj fs => exact absurd rfl (hno fs)
      | arr xs => exact absurd rfl (hna xs)
      | str sj => exact absurd rfl (hns sj)
      | null =>
        exact handler_body_eq method ro rr (some .null) (some (.obj [])) env store now
          (fun o => postCore_body_parse_eq o (some .null) (some (.obj [])) env store now rfl)
      | bool bb =>
        cases bb with
        | false =>
          exact handler_body_eq method ro rr (some (.bool false)) (some (.obj []))
            env store now
            (fun o => postCore_body_parse_eq o (some (.bool false)) (some (.obj []))
              env store now rfl)
        | true =>
          exact handler_body_eq method ro rr (some (.bool true)) (some (.obj []))
            env store now
            (fun o => postCore_unvalidated_eq o (some (.bool true)) (some (.obj []))
              env store now (.bool true) (.obj []) rfl rfl rfl rfl rfl rfl rfl rfl)
      | num n =>
        by_cases hn0 : n = 0
        · subst hn0
          exact handler_body_eq method ro rr (some (.num 0)) (some (.obj [])) env store now
            (fun o => postCore_body_parse_eq o (some (.num 0)) (some (.obj []))
              env store now rfl)
        · have hpn : parseOrder (some (.num n)) = .ok (.num n) := by
            have hpr : intReprS n = stringify2 (.num n) := by
              simp [intReprS, stringify2, printJ]
            simp only [parseOrder]
            have htr : jsTruthy (.num n) = true := by simp [jsTruthy, hn0]
            rw [htr]
            simp only [if_true]
            have hj : jsToString (.num n) = intReprS n := rfl
            rw [hj, hpr, jsonParse_stringify2]
          exact handler_body_eq method ro rr (some (.num n)) (some (.obj [])) env store now
            (fun o => postCore_unvalidated_eq o (some (.num n)) (some (.obj []))
              env store now (.num n) (.obj []) hpn rfl rfl rfl rfl rfl rfl rfl)

/-- Witness for the amended body-parsing theorem at concrete bodies. -/
theorem body_parsing_amended_witness :
    parseOrder (some (.obj [("a", .num 1)])) = .ok (.obj [("a", .num 1)])
    ∧ parseOrder (some (.str "not-json")) = .error ()
    ∧ handler ⟨"POST", none, none, some (.str "not-json")⟩ wEnv wStore 7 =
        (.resp ⟨400, corsHeaders "*", some (errorBody "Invalid JSON body")⟩, [])
    ∧ parseOrder (some (.str "")) = .ok (.obj [])
    ∧ handler ⟨"POST", none, none, some (.num 42)⟩ wEnv wStore 7 =
        handler ⟨"POST", none, none, some (.obj [])⟩ wEnv wStore 7 := by
  have h := body_parsing_amended
  have hc := h.2.2.1 "not-json" (by decide) rfl
  exact ⟨h.1 [("a", .num 1)], hc.1,
    hc.2 ⟨"POST", none, none, some (.str "not-json")⟩ wEnv wStore 7 "*" rfl rfl rfl rfl rfl rfl,
    h.2.2.2.1,
    h.2.2.2.2 (some (.num 42)) "POST" none none wEnv wStore 7
      (fun fs => by simp) (fun xs => by simp) (fun sj => by simp)⟩
